import Mathlib

/-!
Verification development for the paper-to-notebook generation engine
(project `papertocode`): a shallow embedding of its retry policy, provider
gateway adapters, response parsers and pipeline prompt builders, together
with theorems settling the specification claims about them.

Strings from the TypeScript source are modelled as `List Char`; JavaScript
machine integers and `Math` operations are modelled over `ℚ`/`Int`/`Nat`
with the exact JS semantics spelled out at each definition.
-/

/-- Convert a Lean string literal to the `List Char` representation used
throughout this development. -/
def chars (s : String) : List Char := s.data

/-- JavaScript whitespace class (the ASCII part of `\s`, which is also the
class used by `String.prototype.trim`): space, tab, newline, carriage
return, vertical tab, form feed. -/
def isWs (c : Char) : Bool :=
  c == ' ' || c == '\t' || c == '\n' || c == '\r' || c == '\x0b' || c == '\x0c'

/-- Drop leading JS whitespace (the first half of `String.prototype.trim`). -/
def trimLeft (l : List Char) : List Char := l.dropWhile (isWs ·)

/-- Drop trailing JS whitespace (the second half of `String.prototype.trim`). -/
def trimRight (l : List Char) : List Char := (l.reverse.dropWhile (isWs ·)).reverse

/-- JS `String.prototype.trim`. -/
def trim (l : List Char) : List Char := trimRight (trimLeft l)

/-- ASCII lower-casing on code points, as used by the JS regex `i` flag for
the ASCII patterns in this code base. -/
def lowerNat (n : Nat) : Nat := if 65 ≤ n ∧ n ≤ 90 then n + 32 else n

/-- Case-insensitive character comparison (JS regex `i` flag, ASCII). -/
def ciEq (c d : Char) : Bool := lowerNat c.toNat == lowerNat d.toNat

/-- Embedding of `startsCI pat l`: `pat` is a case-insensitive prefix of `l`. -/
def startsCI : List Char → List Char → Bool
  | [], _ => true
  | _ :: _, [] => false
  | p :: ps, c :: cs => ciEq p c && startsCI ps cs

/-- Embedding of `occursCI pat l`: `pat` occurs case-insensitively as a substring of `l`. -/
def occursCI (pat : List Char) : List Char → Bool
  | [] => startsCI pat []
  | c :: cs => startsCI pat (c :: cs) || occursCI pat cs

/-- Embedding of `startsWithP pat l`: `pat` is a (case-sensitive) prefix of `l`
(JS `String.prototype.startsWith`). -/
def startsWithP : List Char → List Char → Bool
  | [], _ => true
  | _ :: _, [] => false
  | p :: ps, c :: cs => p == c && startsWithP ps cs

/-- Embedding of `occursSub pat l`: `pat` occurs case-sensitively as a substring of `l`
(JS `String.prototype.includes`). -/
def occursSub (pat : List Char) : List Char → Bool
  | [] => startsWithP pat []
  | c :: cs => startsWithP pat (c :: cs) || occursSub pat cs

/-- JS `a || b` for strings: the empty string is falsy, so `a || b` is `b`
exactly when `a` is empty. -/
def jsOrStr (a b : List Char) : List Char := if a.isEmpty then b else a

/-- JS `a || b` where `a` is a number that may be `undefined` (`Option Nat`):
`undefined` and `0` are falsy. Used for `config.maxTokens || 4096`. -/
def jsOrNat (a : Option Nat) (b : Nat) : Nat :=
  match a with
  | none => b
  | some 0 => b
  | some n => n

/-- JS `String.prototype.split` on the single character `sep`
(`source.split('\n')` in the notebook serializer): splitting the empty
string yields `[""]`, and separators at either end yield empty pieces. -/
def splitOnChar (sep : Char) : List Char → List (List Char)
  | [] => [[]]
  | c :: cs =>
    if c == sep then
      [] :: splitOnChar sep cs
    else
      match splitOnChar sep cs with
      | [] => [[c]]
      | p :: ps => (c :: p) :: ps

-- ===========================================================================
-- RetryPolicy (src/unnamed/part_000, `withRetry` and `calculateDelay`)
-- ===========================================================================

/-- The capped exponential backoff before jitter, i.e. the local
`cappedDelay = Math.min(initialDelayMs * Math.pow(multiplier, attempt - 1), maxDelayMs)`
of `calculateDelay` (src/unnamed/part_000:267-268). -/
def preJitterDelay (attempt : Nat) (initialDelayMs maxDelayMs multiplier : ℚ) : ℚ :=
  min (initialDelayMs * multiplier ^ (attempt - 1)) maxDelayMs

/-- Embedding of `calculateDelay` (src/unnamed/part_000:261-272).  `rand` stands for the
value of `Math.random()`, which lies in `[0, 1)`; JS `Math.round x` is
`⌊x + 1/2⌋`, which is Mathlib's `round` on `ℚ`. -/
def calculateDelay (attempt : Nat) (initialDelayMs maxDelayMs multiplier rand : ℚ) : ℤ :=
  let cappedDelay := preJitterDelay attempt initialDelayMs maxDelayMs multiplier
  let jitter := cappedDelay * (1/4) * (rand * 2 - 1)
  round (cappedDelay + jitter)

/-- One run of the retry loop of `withRetry` (src/unnamed/part_000:277-315)
starting at attempt number `attempt` with `remaining` further attempts
allowed after the current one.  The `i`-th invocation of the wrapped
operation is modelled as `fn i` (attempts are 1-indexed as in the source);
the result pairs the outcome with the number of invocations performed.
The `sleep` and `onRetry` side effects carry no data and are elided. -/
def runRetry (fn : Nat → Except ε α) (retryable : ε → Bool) :
    Nat → Nat → Except ε α × Nat
  | attempt, remaining =>
    match fn attempt with
    | .ok a => (.ok a, 1)
    | .error e =>
      match remaining with
      | 0 => (.error e, 1)
      | r + 1 =>
        if retryable e then
          let rec' := runRetry fn retryable (attempt + 1) r
          (rec'.1, rec'.2 + 1)
        else
          (.error e, 1)

/-- Embedding of `withRetry` (src/unnamed/part_000:277-315): run the operation starting
at attempt 1 with `maxAttempts` total attempts permitted.  Requires
`maxAttempts ≥ 1` to be meaningful (as in the source, whose loop runs from
`attempt = 1` to `maxAttempts`). -/
def withRetry (fn : Nat → Except ε α) (retryable : ε → Bool) (maxAttempts : Nat) :
    Except ε α × Nat :=
  runRetry fn retryable 1 (maxAttempts - 1)

-- ===========================================================================
-- Anthropic max-token cap
-- (src/services/orchestratorService.ts:345-347 `callAnthropic` and
--  src/services/geminiService.ts:431-433 `generateAnthropic`, identical code)
-- ===========================================================================

/-- Embedding of `const modelMaxTokens = config.model.includes('3-5') || config.model.includes('3.5') ? 8192 : 4096;` -/
def anthropicModelMaxTokens (model : List Char) : Nat :=
  if occursSub (chars "3-5") model || occursSub (chars "3.5") model then 8192 else 4096

/-- Embedding of `const maxTokens = Math.min(config.maxTokens || 4096, modelMaxTokens);` —
the `max_tokens` value placed in the Anthropic request body. -/
def anthropicMaxTokens (model : List Char) (configMaxTokens : Option Nat) : Nat :=
  min (jsOrNat configMaxTokens 4096) (anthropicModelMaxTokens model)

-- ===========================================================================
-- JSON values (model of JS objects / `JSON.parse` results)
-- ===========================================================================

/-- JSON values, modelling the plain JS data produced by `JSON.parse` and
consumed by `JSON.stringify`.  Numbers keep their raw source characters:
no claim in this development depends on numeric value semantics. -/
inductive Json where
  | null : Json
  | bool (b : Bool) : Json
  | num (raw : List Char) : Json
  | str (s : List Char) : Json
  | arr (elems : List Json) : Json
  | obj (fields : List (List Char × Json)) : Json

/-- JS property access `o[key]` on a parsed JSON object: when `JSON.parse`
sees a duplicated key the last occurrence wins, so lookup scans from the
right.  Absent keys give `undefined`, modelled as `none`. -/
def Json.lookup (key : List Char) (fields : List (List Char × Json)) : Option Json :=
  (fields.reverse.find? (fun f => f.1 == key)).map (·.2)

-- ===========================================================================
-- Notebook serializer `createNotebookBlob`
-- (src/services/geminiService.ts:155-185 and :770-800, identical code)
-- ===========================================================================

/-- Notebook cell kinds (`cell_type` in `types.ts`). -/
inductive CellType where
  | code : CellType
  | markdown : CellType
  deriving Repr, DecidableEq

/-- Embedding of `NotebookCell` from `types.ts`: `{cell_type, source}`. -/
structure NotebookCell where
  cell_type : CellType
  source : List Char
  deriving Repr, DecidableEq

/-- Embedding of `GeneratedContent` from `types.ts`: `{guide, notebookName, cells}`. -/
structure GeneratedContent where
  guide : List Char
  notebookName : List Char
  cells : List NotebookCell
  deriving Repr, DecidableEq

def CellType.toChars : CellType → List Char
  | .code => chars "code"
  | .markdown => chars "markdown"

/-- One serialized cell of the `ipynb` structure built by
`createNotebookBlob`: `cell.source.split('\n').map(line => line + '\n')`
for the source, an empty `outputs` array, and `execution_count: null`. -/
def cellToIpynb (cell : NotebookCell) : Json :=
  .obj
    [ (chars "cell_type", .str cell.cell_type.toChars)
    , (chars "metadata", .obj [])
    , (chars "source",
        .arr ((splitOnChar '\n' cell.source).map (fun line => .str (line ++ ['\n']))))
    , (chars "outputs", .arr [])
    , (chars "execution_count", .null) ]

/-- The fixed notebook metadata object of `createNotebookBlob`. -/
def ipynbMetadata : Json :=
  .obj
    [ (chars "kernelspec", .obj
        [ (chars "display_name", .str (chars "Python 3"))
        , (chars "language", .str (chars "python"))
        , (chars "name", .str (chars "python3")) ])
    , (chars "language_info", .obj
        [ (chars "codemirror_mode", .obj
            [ (chars "name", .str (chars "ipython"))
            , (chars "version", .num (chars "3")) ])
        , (chars "file_extension", .str (chars ".py"))
        , (chars "mimetype", .str (chars "text/x-python"))
        , (chars "name", .str (chars "python"))
        , (chars "nbconvert_exporter", .str (chars "python"))
        , (chars "pygments_lexer", .str (chars "ipython3"))
        , (chars "version", .str (chars "3.10.0")) ]) ]

/-- The notebook structure (`const ipynb = {...}`) built by
`createNotebookBlob` before `JSON.stringify`; the `Blob` wrapper is pure
IO and carries the same structure. -/
def createNotebookIpynb (cells : List NotebookCell) : Json :=
  .obj
    [ (chars "cells", .arr (cells.map cellToIpynb))
    , (chars "metadata", ipynbMetadata)
    , (chars "nbformat", .num (chars "4"))
    , (chars "nbformat_minor", .num (chars "5")) ]

-- ===========================================================================
-- Provider gateway adapters (src/services/orchestratorService.ts:302-424)
-- ===========================================================================

/-- The response object of the Gemini SDK as consumed by `callGemini`
(orchestratorService.ts:302-315): only its `text` field is read, which may
be `undefined`. -/
structure GeminiResponse where
  text : Option (List Char)

/-- Embedding of `callGemini` result extraction: `return response.text || "";`.
The adapter itself never raises on a delivered response. -/
def callGemini (response : GeminiResponse) : List Char :=
  jsOrStr (response.text.getD []) []

/-- The parts of an OpenAI-style `fetch` response consumed by `callOpenAI`
(orchestratorService.ts:317-342): the HTTP `ok` flag and status, the
optional `err.error?.message` of the decoded error body, and the
`choices[*].message?.content` chain of the decoded success body. -/
structure OpenAIResponse where
  ok : Bool
  status : Nat
  errorMessage : Option (List Char)
  choicesContent : List (Option (List Char))

/-- Embedding of `callOpenAI` (orchestratorService.ts:317-342): on a non-OK response
throw `err.error?.message || "OpenAI API failed: <status>"`; otherwise
return `data.choices[0]?.message?.content || ""`. -/
def callOpenAI (response : OpenAIResponse) : Except (List Char) (List Char) :=
  if !response.ok then
    .error (jsOrStr (response.errorMessage.getD [])
      (chars "OpenAI API failed: " ++ (toString response.status).data))
  else
    .ok (jsOrStr ((response.choicesContent.head?.getD none).getD []) [])

/-- The parts of an Ollama `fetch` response consumed by `callOllama`
(orchestratorService.ts:402-424): `ok`, `status` and `data.message?.content`. -/
structure OllamaResponse where
  ok : Bool
  status : Nat
  messageContent : Option (List Char)

/-- Embedding of `callOllama` (orchestratorService.ts:402-424): on a non-OK response
throw `"Ollama request failed: <status>"`; otherwise return
`data.message?.content || ""`. -/
def callOllama (response : OllamaResponse) : Except (List Char) (List Char) :=
  if !response.ok then
    .error (chars "Ollama request failed: " ++ (toString response.status).data)
  else
    .ok (jsOrStr (response.messageContent.getD []) [])

-- ===========================================================================
-- A model of `JSON.parse` (used by the embedded-JSON fallback paths of
-- `parseAnalysisResponse` / `parseDesignResponse`)
-- ===========================================================================

/-- JSON's own whitespace class (as accepted between `JSON.parse` tokens). -/
def jsonWsChar (c : Char) : Bool := c == ' ' || c == '\t' || c == '\n' || c == '\r'

def skipJWs (l : List Char) : List Char := l.dropWhile jsonWsChar

def hexVal (c : Char) : Option Nat :=
  if 48 ≤ c.toNat && c.toNat ≤ 57 then some (c.toNat - 48)
  else if 97 ≤ c.toNat && c.toNat ≤ 102 then some (c.toNat - 87)
  else if 65 ≤ c.toNat && c.toNat ≤ 70 then some (c.toNat - 55)
  else none

/-- Parse a JSON string body (after the opening quote), handling the JSON
escape sequences; returns the decoded content and the rest after the
closing quote.  Raw control characters are rejected, as in `JSON.parse`. -/
def parseJString : List Char → Option (List Char × List Char)
  | [] => none
  | '"' :: rest => some ([], rest)
  | '\\' :: rest =>
    match rest with
    | '"' :: t => (parseJString t).map (fun p => ('"' :: p.1, p.2))
    | '\\' :: t => (parseJString t).map (fun p => ('\\' :: p.1, p.2))
    | '/' :: t => (parseJString t).map (fun p => ('/' :: p.1, p.2))
    | 'b' :: t => (parseJString t).map (fun p => ('\x08' :: p.1, p.2))
    | 'f' :: t => (parseJString t).map (fun p => ('\x0c' :: p.1, p.2))
    | 'n' :: t => (parseJString t).map (fun p => ('\n' :: p.1, p.2))
    | 'r' :: t => (parseJString t).map (fun p => ('\r' :: p.1, p.2))
    | 't' :: t => (parseJString t).map (fun p => ('\t' :: p.1, p.2))
    | 'u' :: h1 :: h2 :: h3 :: h4 :: t =>
      match hexVal h1, hexVal h2, hexVal h3, hexVal h4 with
      | some a, some b, some c, some d =>
        (parseJString t).map (fun p =>
          (Char.ofNat (((a * 16 + b) * 16 + c) * 16 + d) :: p.1, p.2))
      | _, _, _, _ => none
    | _ => none
  | c :: rest =>
    if c.toNat < 32 then none
    else (parseJString rest).map (fun p => (c :: p.1, p.2))

/-- Parse a JSON number, returning its raw characters and the rest. -/
def parseJNumber (l : List Char) : Option (List Char × List Char) :=
  let signed : List Char × List Char :=
    match l with
    | '-' :: t => (['-'], t)
    | _ => ([], l)
  let sign := signed.1
  let l1 := signed.2
  let intPart : Option (List Char × List Char) :=
    match l1 with
    | '0' :: t => some (['0'], t)
    | c :: t =>
      if c.isDigit then some (c :: t.takeWhile (·.isDigit), t.dropWhile (·.isDigit))
      else none
    | [] => none
  intPart.bind (fun ip =>
    let fracced : Option (List Char × List Char) :=
      match ip.2 with
      | '.' :: t =>
        let ds := t.takeWhile (·.isDigit)
        if ds.isEmpty then none else some ('.' :: ds, t.dropWhile (·.isDigit))
      | _ => some ([], ip.2)
    fracced.bind (fun fp =>
      let exp : Option (List Char × List Char) :=
        match fp.2 with
        | c :: t =>
          if c == 'e' || c == 'E' then
            let se : List Char × List Char :=
              match t with
              | s :: t2 => if s == '+' || s == '-' then ([s], t2) else ([], t)
              | [] => ([], t)
            let ds := se.2.takeWhile (·.isDigit)
            if ds.isEmpty then none
            else some (c :: se.1 ++ ds, se.2.dropWhile (·.isDigit))
          else some ([], fp.2)
        | [] => some ([], fp.2)
      exp.map (fun ep => (sign ++ ip.1 ++ fp.1 ++ ep.1, ep.2))))

mutual

/-- Fuel-indexed JSON value parser (the fuel strictly bounds the number of
recursive calls; `jsonParse` supplies enough for any input). -/
def parseJValue : Nat → List Char → Option (Json × List Char)
  | 0, _ => none
  | fuel + 1, l =>
    match skipJWs l with
    | 'n' :: 'u' :: 'l' :: 'l' :: r => some (.null, r)
    | 't' :: 'r' :: 'u' :: 'e' :: r => some (.bool true, r)
    | 'f' :: 'a' :: 'l' :: 's' :: 'e' :: r => some (.bool false, r)
    | '"' :: r => (parseJString r).map (fun p => (.str p.1, p.2))
    | '[' :: r =>
      (match skipJWs r with
       | ']' :: t => some (.arr [], t)
       | _ => (parseJElems fuel r).map (fun p => (.arr p.1, p.2)))
    | '{' :: r =>
      (match skipJWs r with
       | '}' :: t => some (.obj [], t)
       | _ => (parseJFields fuel r).map (fun p => (.obj p.1, p.2)))
    | l2 => (parseJNumber l2).map (fun p => (.num p.1, p.2))

/-- Comma-separated JSON array elements up to the closing bracket. -/
def parseJElems : Nat → List Char → Option (List Json × List Char)
  | 0, _ => none
  | fuel + 1, l =>
    (parseJValue fuel l).bind (fun p =>
      match skipJWs p.2 with
      | ',' :: t => (parseJElems fuel t).map (fun q => (p.1 :: q.1, q.2))
      | ']' :: t => some ([p.1], t)
      | _ => none)

/-- Comma-separated JSON object members up to the closing brace. -/
def parseJFields : Nat → List Char → Option (List (List Char × Json) × List Char)
  | 0, _ => none
  | fuel + 1, l =>
    match skipJWs l with
    | '"' :: r =>
      (parseJString r).bind (fun kp =>
        match skipJWs kp.2 with
        | ':' :: r3 =>
          (parseJValue fuel r3).bind (fun vp =>
            match skipJWs vp.2 with
            | ',' :: t => (parseJFields fuel t).map (fun q => ((kp.1, vp.1) :: q.1, q.2))
            | '}' :: t => some ([(kp.1, vp.1)], t)
            | _ => none)
        | _ => none)
    | _ => none

end

/-- Embedding of `JSON.parse`: a complete parse of the input (with surrounding
whitespace allowed), or `none` where `JSON.parse` would throw. -/
def jsonParse (l : List Char) : Option Json :=
  (parseJValue (l.length * 2 + 2) l).bind (fun p =>
    if (skipJWs p.2).isEmpty then some p.1 else none)

/-- Embedding of `text.match(/\x7b[\s\S]*\x7d/)`: the greedy match runs from the first
opening brace to the last closing brace of the (whole) text, provided the
latter comes after the former. -/
def jsonMatchSlice (l : List Char) : Option (List Char) :=
  match l.findIdx? (· == '{'), l.reverse.findIdx? (· == '}') with
  | some i, some k =>
    let j := l.length - 1 - k
    if i < j then some ((l.drop i).take (j - i + 1)) else none
  | _, _ => none

/-- The embedded-JSON fallback shared by `parseAnalysisResponse` and
`parseDesignResponse`: locate the brace-delimited slice, `JSON.parse` it,
and produce the raw field list of the resulting object (`none` models the
`catch \x7b\x7d` path where the fallback is abandoned). -/
def jsonExtractObj (text : List Char) : Option (List (List Char × Json)) :=
  (jsonMatchSlice text).bind (fun s =>
    match jsonParse s with
    | some (.obj fs) => some fs
    | _ => none)

-- ===========================================================================
-- Labeled-field extraction (src/services/orchestratorService.ts:455-597)
--
-- `getField(label)` runs `text.match(new RegExp(label + ":\\s*(.+?)(?=\\n[A-Z_]+:|$)", "is"))`.
-- With the `i` and `s` flags this regex matches at the first (leftmost)
-- case-insensitive occurrence of `label:` that is followed by at least one
-- character; the greedy `\s*` swallows the whitespace run after the colon
-- (backing off just enough to leave the mandatory character for `.+?`),
-- and the lazy `.+?` then extends to the first position where the
-- lookahead `\n[A-Z_]+:` (any newline followed by a colon-terminated run
-- of letters/underscores — `i` makes `[A-Z_]` also match lowercase) or the
-- end of the text is reached.  The definitions below implement exactly
-- that backtracking outcome.
-- ===========================================================================

/-- Embedding of `[A-Z_]` under the regex `i` flag: ASCII letters and underscore. -/
def isLabelChar (c : Char) : Bool :=
  (65 ≤ c.toNat && c.toNat ≤ 90) || (97 ≤ c.toNat && c.toNat ≤ 122) || c == '_'

/-- Embedding of `\w`: ASCII letters, digits and underscore (for `\b` in list splitting). -/
def isWordChar (c : Char) : Bool := isLabelChar c || (48 ≤ c.toNat && c.toNat ≤ 57)

/-- The lookahead `(?=\n[A-Z_]+:|$)` (flags `i`,`s`) holds at a suffix:
either the end of the text, or a newline followed by a nonempty
letters/underscore run whose immediately following character is a colon. -/
def lookLabelBreak : List Char → Bool
  | [] => true
  | c :: rest =>
    c == '\n' && !(rest.takeWhile isLabelChar).isEmpty &&
      ((rest.dropWhile isLabelChar).head? == some ':')

/-- The suffix of `text` just after the first case-insensitive occurrence
of `label ++ ":"` that leaves a nonempty remainder (the leftmost position
at which the whole `getField` regex can match), or `none`. -/
def findLabelRest (label : List Char) : List Char → Option (List Char)
  | [] => none
  | c :: cs =>
    if startsCI (label ++ [':']) (c :: cs) && !((c :: cs).drop (label.length + 1)).isEmpty then
      some ((c :: cs).drop (label.length + 1))
    else
      findLabelRest label cs

/-- The greedy `\s*` after the colon, capped so that at least one
character is left over for the mandatory `.+?`. -/
def dropWsKeepOne : List Char → List Char
  | [] => []
  | c :: cs => if isWs c && !cs.isEmpty then dropWsKeepOne cs else c :: cs

/-- The continuation of the lazy `.+?` after its mandatory first
character: keep taking characters until `lookLabelBreak` holds. -/
def captureAux : List Char → List Char
  | [] => []
  | c :: cs => if lookLabelBreak (c :: cs) then [] else c :: captureAux cs

/-- The full lazy capture `.+?` (at least one character, then up to the
first label break or the end of the text). -/
def capture1 : List Char → List Char
  | [] => []
  | c :: cs => c :: captureAux cs

/-- Embedding of `getField` of `parseAnalysisResponse` / `parseDesignResponse`
(orchestratorService.ts:459-463 and :511-515): the trimmed capture of the
regex described above, or the empty string when there is no match. -/
def getField (label text : List Char) : List Char :=
  match findLabelRest label text with
  | none => []
  | some rest => trim (capture1 (dropWsKeepOne rest))

/-- Does the word separator `\band\b` match here, i.e. at `c :: cs` with
`prev` the character before `c`? -/
def andBoundary (prev : Option Char) (c : Char) (cs : List Char) : Bool :=
  c == 'a' &&
    (match cs with
     | 'n' :: 'd' :: rest =>
       (match prev with
        | none => true
        | some p => !isWordChar p) &&
       (match rest with
        | [] => true
        | r :: _ => !isWordChar r)
     | _ => false)

/-- Splitting on `/[,\n]|(?:\band\b)/` (getListField,
orchestratorService.ts:465-473): single-character separators `,` and
newline, or the word `and` delimited by `\b` word boundaries on both
sides.  `prev` carries the character immediately before the current
position for the left boundary test. -/
def splitListSep (prev : Option Char) : List Char → List (List Char)
  | [] => [[]]
  | c :: cs =>
    if c == ',' || c == '\n' then
      [] :: splitListSep (some c) cs
    else if andBoundary prev c cs then
      [] :: splitListSep (some 'd') (cs.drop 2)
    else
      match splitListSep (some c) cs with
      | [] => [[c]]
      | p :: ps => (c :: p) :: ps
termination_by l => l.length
decreasing_by all_goals (simp only [List.length_cons, List.length_drop]; omega)

/-- The per-item cleanup of `getListField`: strip one leading run of
`[\s\-\*\d\.]`, delete all square brackets, and trim. -/
def cleanListItem (s : List Char) : List Char :=
  trim (((s.dropWhile (fun c => isWs c || c == '-' || c == '*' || c.isDigit || c == '.')).filter
    (fun c => !(c == '[' || c == ']'))))

/-- Embedding of `getListField` (orchestratorService.ts:465-473): split the field value
on commas, newlines and word-`and`, clean each piece, and keep the
nonempty ones; an absent or empty field gives the empty list. -/
def getListField (label text : List Char) : List (List Char) :=
  let value := getField label text
  if value.isEmpty then []
  else ((splitListSep none value).map cleanListItem).filter (fun s => !s.isEmpty)

-- ===========================================================================
-- `parseAnalysisResponse` (src/services/orchestratorService.ts:455-503)
-- ===========================================================================

/-- The result shape of `parseAnalysisResponse`.  TypeScript's return value
is an untyped runtime object (the JSON fallback path returns the parsed
object under an unchecked cast), so each field is modelled as the JS value
found under that property name: `none` is `undefined`. -/
structure AnalysisResultP where
  intent : Option Json
  novelty : Option Json
  core_algorithms : Option Json
  complexity : Option Json
  dependencies : Option Json

def intentPlaceholder : List Char := chars "Paper analysis intent not extracted"

def noveltyPlaceholder : List Char := chars "Paper novelty not extracted"

/-- The value returned by the embedded-JSON fallback
`JSON.parse(jsonMatch[0]) as AnalysisResult`: the raw parsed object,
observed through the five expected property names. -/
def analysisOfObj (fs : List (List Char × Json)) : AnalysisResultP :=
  { intent := Json.lookup (chars "intent") fs
  , novelty := Json.lookup (chars "novelty") fs
  , core_algorithms := Json.lookup (chars "core_algorithms") fs
  , complexity := Json.lookup (chars "complexity") fs
  , dependencies := Json.lookup (chars "dependencies") fs }

/-- Embedding of `parseAnalysisResponse` (orchestratorService.ts:455-503).
Notes on the JS semantics preserved here:
* `getField('INTENT') || getField('Intent')` — both calls are
  case-insensitive, so the fallback call is kept but can only repeat the
  first result;
* `getListField(..) || getListField(..) || ['Algorithm']` — a JS array is
  always truthy (even when empty), so the first `getListField` result is
  taken unconditionally and the literal defaults are unreachable;
* the final guard compares the two headline fields against their
  placeholder strings, and on the fallback path either returns the
  embedded JSON object raw or synthesizes a result from the leading text. -/
def parseAnalysisResponse (text : List Char) : Except (List Char) AnalysisResultP :=
  if (trim text).isEmpty then
    .error (chars "Empty response from AI in Analysis step")
  else
    let intent := jsOrStr (getField (chars "INTENT") text)
      (jsOrStr (getField (chars "Intent") text) intentPlaceholder)
    let novelty := jsOrStr (getField (chars "NOVELTY") text)
      (jsOrStr (getField (chars "Novelty") text) noveltyPlaceholder)
    let core_algorithms := getListField (chars "CORE_ALGORITHMS") text
    let complexity := jsOrStr (getField (chars "COMPLEXITY") text)
      (jsOrStr (getField (chars "Complexity") text) (chars "Moderate"))
    let dependencies := getListField (chars "DEPENDENCIES") text
    if intent == intentPlaceholder && novelty == noveltyPlaceholder then
      match jsonExtractObj text with
      | some fs => .ok (analysisOfObj fs)
      | none =>
        .ok
          { intent := some (.str (jsOrStr (text.take 200) (chars "See paper for details")))
          , novelty := some (.str (chars "Novel approach described in paper"))
          , core_algorithms := some (.arr [.str (chars "Main Algorithm")])
          , complexity := some (.str (chars "Moderate"))
          , dependencies := some (.arr []) }
    else
      .ok
        { intent := some (.str intent)
        , novelty := some (.str novelty)
        , core_algorithms := some (.arr (core_algorithms.map .str))
        , complexity := some (.str complexity)
        , dependencies := some (.arr (dependencies.map .str)) }

-- ===========================================================================
-- `parseDesignResponse` (src/services/orchestratorService.ts:508-597)
-- ===========================================================================

/-- The continuation of `[\s\S]*?` in `getListSection`: take characters
(including newlines) until the `(?=\n[A-Z_]+:|$)` lookahead holds; the
capture may be empty. -/
def captureUntilBreak : List Char → List Char
  | [] => []
  | c :: cs => if lookLabelBreak (c :: cs) then [] else c :: captureUntilBreak cs

/-- The first case-insensitive occurrence of `label ++ ":"` (no remainder
requirement: the `getListSection` capture may be empty), returning the
suffix after the colon. -/
def findLabelRestAny (label : List Char) : List Char → Option (List Char)
  | [] => none
  | c :: cs =>
    if startsCI (label ++ [':']) (c :: cs) then
      some ((c :: cs).drop (label.length + 1))
    else
      findLabelRestAny label cs

/-- Embedding of `getListSection` (orchestratorService.ts:517-525): capture
`${label}:([\s\S]*?)(?=\n[A-Z_]+:|$)` (flag `i`), split the capture on
newlines, strip one leading run of `[\s\-\*]` from each line, trim, and
keep the nonempty lines. -/
def getListSection (label text : List Char) : List (List Char) :=
  match findLabelRestAny label text with
  | none => []
  | some rest =>
    ((splitOnChar '\n' (captureUntilBreak rest)).map
      (fun s => trim (s.dropWhile (fun c => isWs c || c == '-' || c == '*')))).filter
      (fun s => !s.isEmpty)

/-- The tail `\s*(.+?)(?::|$)(.*)?` of the simplification-line regex: after
the greedy-but-capped whitespace skip, the lazy group runs to the first
colon (consumed, with the optional group taking the remainder) or to the
end of the line (optional group empty). -/
def g2Scan : List Char → List Char × List Char
  | [] => ([], [])
  | ':' :: r => ([], r)
  | c :: cs =>
    let p := g2Scan cs
    (c :: p.1, p.2)

/-- One backtracking step of
`line.match(/(.+?)\s*(?:->|→|:)\s*(.+?)(?::|$)(.*)?/)`
(orchestratorService.ts:533): with group 1 accumulated (reversed) in
`g1rev`, try to match the separator (after the greedy whitespace run —
all separators begin with non-whitespace, so only the full run can
precede them) and the tail at the current position; on failure extend
group 1 by one character.  Since the leading `.+?` makes a match starting
anywhere extendable to one starting at position 0, this scan from the
start is exactly the regex's leftmost-match search. -/
def sepAfterWs (rest : List Char) : Option (List Char) :=
  match rest.dropWhile (isWs ·) with
  | '-' :: '>' :: r => some r
  | '→' :: r => some r
  | ':' :: r => some r
  | _ => none

/-- The separator-and-tail attempt of the simplification-line regex at the
current position: whitespace run, separator, then `\s*(.+?)(?::|$)(.*)?`. -/
def simpSepTail (rest : List Char) : Option (List Char × List Char) :=
  (sepAfterWs rest).bind (fun afterSep =>
    match dropWsKeepOne afterSep with
    | [] => none
    | c :: cs =>
      let p := g2Scan cs
      some (c :: p.1, p.2))

def simpTryFrom (g1rev : List Char) : List Char → Option (List Char × List Char × List Char)
  | [] => none
  | c :: cs =>
    match simpSepTail (c :: cs) with
    | some gs => some (g1rev.reverse, gs.1, gs.2)
    | none => simpTryFrom (c :: g1rev) cs

/-- Embedding of `line.match(/(.+?)\s*(?:->|→|:)\s*(.+?)(?::|$)(.*)?/)`. -/
def matchSimp : List Char → Option (List Char × List Char × List Char)
  | [] => none
  | c :: cs => simpTryFrom [c] cs

/-- The mandatory-then-scan part `(.+?)\)` of the mock-component regex:
at least one character, then up to and over the first closing paren. -/
def closeScan : List Char → Option (List Char × List Char)
  | [] => none
  | ')' :: r => some ([], r)
  | c :: cs => (closeScan cs).map (fun p => (c :: p.1, p.2))

/-- One backtracking step of
`line.match(/(.+?)\s*\((.+?)\)\s*:?\s*(.*)/)` (orchestratorService.ts:547);
same leftmost-search argument as `simpTryFrom`. -/
def mockSepTail (rest : List Char) : Option (List Char × List Char) :=
  match rest.dropWhile (isWs ·) with
  | '(' :: r =>
    (match r with
     | [] => none
     | c :: cs =>
       (closeScan cs).map (fun p =>
         let a1 := p.2.dropWhile (isWs ·)
         let a2 :=
           match a1 with
           | ':' :: t => t.dropWhile (isWs ·)
           | _ => a1
         (c :: p.1, a2)))
  | _ => none

def mockTryFrom (g1rev : List Char) : List Char → Option (List Char × List Char × List Char)
  | [] => none
  | c :: cs =>
    match mockSepTail (c :: cs) with
    | some gs => some (g1rev.reverse, gs.1, gs.2)
    | none => mockTryFrom (c :: g1rev) cs

/-- Embedding of `line.match(/(.+?)\s*\((.+?)\)\s*:?\s*(.*)/)`. -/
def matchMock : List Char → Option (List Char × List Char × List Char)
  | [] => none
  | c :: cs => mockTryFrom [c] cs

/-- One backtracking step of
`line.match(/(.+?)\s*(?:->|→|:)\s*(.+)/)` (orchestratorService.ts:561);
the greedy `(.+)` takes everything after the (capped) whitespace run. -/
def moduleSepTail (rest : List Char) : Option (List Char) :=
  (sepAfterWs rest).bind (fun afterSep =>
    match dropWsKeepOne afterSep with
    | [] => none
    | c :: cs => some (c :: cs))

def moduleTryFrom (g1rev : List Char) : List Char → Option (List Char × List Char)
  | [] => none
  | c :: cs =>
    match moduleSepTail (c :: cs) with
    | some g2 => some (g1rev.reverse, g2)
    | none => moduleTryFrom (c :: g1rev) cs

/-- Embedding of `line.match(/(.+?)\s*(?:->|→|:)\s*(.+)/)`. -/
def matchModule : List Char → Option (List Char × List Char)
  | [] => none
  | c :: cs => moduleTryFrom [c] cs

/-- The result shape of `parseDesignResponse`, modelled like
`AnalysisResultP`: each field is the JS value found under that property
name in the returned object (`none` is `undefined`). -/
structure DesignResultP where
  toy_architecture : Option Json
  simplifications : Option Json
  mock_components : Option Json
  expected_behavior : Option Json
  module_breakdown : Option Json

def architecturePlaceholder : List Char := chars "Toy implementation of paper algorithm"

/-- One `simplifications` entry (orchestratorService.ts:532-542). -/
def simpEntry (original simplified rationale : List Char) : Json :=
  .obj
    [ (chars "original", .str original)
    , (chars "simplified", .str simplified)
    , (chars "rationale", .str rationale) ]

/-- One `mock_components` entry (orchestratorService.ts:546-556). -/
def mockEntry (name type implementation : List Char) : Json :=
  .obj
    [ (chars "name", .str name)
    , (chars "type", .str type)
    , (chars "implementation", .str implementation) ]

/-- One `module_breakdown` entry (orchestratorService.ts:560-569). -/
def moduleEntry (sectionName notebook_cell : List Char) : Json :=
  .obj
    [ (chars "section", .str sectionName)
    , (chars "notebook_cell", .str notebook_cell) ]

/-- Embedding of `simplifications.map(line => ...)` (orchestratorService.ts:532-542). -/
def parseSimpLine (line : List Char) : Json :=
  match matchSimp line with
  | some m =>
    simpEntry (trim m.1) (trim m.2.1)
      (jsOrStr (trim m.2.2) (chars "Simplifies computation"))
  | none => simpEntry line (chars "Toy version") (chars "Simplification")

/-- Embedding of `mockLines.map(line => ...)` (orchestratorService.ts:546-556). -/
def parseMockLine (line : List Char) : Json :=
  match matchMock line with
  | some m =>
    mockEntry (trim m.1) (trim m.2.1)
      (jsOrStr (trim m.2.2) (chars "Simple implementation"))
  | none => mockEntry line (chars "model") (chars "Mock implementation")

/-- Embedding of `moduleLines.map(line => ...)` (orchestratorService.ts:560-569). -/
def parseModuleLine (line : List Char) : Json :=
  match matchModule line with
  | some m => moduleEntry (trim m.1) (trim m.2)
  | none => moduleEntry line (chars "Implementation cell")

/-- The value returned by the embedded-JSON fallback
`JSON.parse(jsonMatch[0]) as DesignResult` of `parseDesignResponse`. -/
def designOfObj (fs : List (List Char × Json)) : DesignResultP :=
  { toy_architecture := Json.lookup (chars "toy_architecture") fs
  , simplifications := Json.lookup (chars "simplifications") fs
  , mock_components := Json.lookup (chars "mock_components") fs
  , expected_behavior := Json.lookup (chars "expected_behavior") fs
  , module_breakdown := Json.lookup (chars "module_breakdown") fs }

/-- The final `return` of `parseDesignResponse`
(orchestratorService.ts:582-596), with the length-guarded defaults. -/
def designNormalResult (architecture expectedBehavior : List Char)
    (simplifications mock_components module_breakdown : List Json) : DesignResultP :=
  { toy_architecture := some (.str architecture)
  , simplifications := some (.arr
      (if simplifications.isEmpty then
        [simpEntry (chars "Full model") (chars "Toy model") (chars "Reduces complexity")]
      else simplifications))
  , mock_components := some (.arr
      (if mock_components.isEmpty then
        [mockEntry (chars "ToyModel") (chars "model") (chars "Simple neural network")]
      else mock_components))
  , expected_behavior := some (.str expectedBehavior)
  , module_breakdown := some (.arr
      (if module_breakdown.isEmpty then
        [ moduleEntry (chars "Introduction") (chars "Setup and imports")
        , moduleEntry (chars "Method") (chars "Core implementation")
        , moduleEntry (chars "Results") (chars "Evaluation and visualization") ]
      else module_breakdown)) }

/-- Embedding of `parseDesignResponse` (orchestratorService.ts:508-597).  As in
`parseAnalysisResponse`, the `|| getListSection(..)` alternatives are dead
code (JS arrays are truthy), and `architecture` can never be empty (it
ends in a `|| 'Toy implementation of paper algorithm'` default), so the
JSON-fallback guard `!architecture || architecture === '...'` reduces to
the placeholder comparison; when the embedded JSON cannot be parsed the
code falls through to the normal return. -/
def parseDesignResponse (text : List Char) : Except (List Char) DesignResultP :=
  if (trim text).isEmpty then
    .error (chars "Empty response from AI in Design step")
  else
    let architecture := jsOrStr (getField (chars "ARCHITECTURE") text)
      (jsOrStr (getField (chars "Architecture") text) architecturePlaceholder)
    let expectedBehavior := jsOrStr (getField (chars "EXPECTED_BEHAVIOR") text)
      (jsOrStr (getField (chars "Expected Behavior") text)
        (chars "Implementation demonstrates key concepts"))
    let simplifications := (getListSection (chars "SIMPLIFICATIONS") text).map parseSimpLine
    let mock_components := (getListSection (chars "MOCK_COMPONENTS") text).map parseMockLine
    let module_breakdown := (getListSection (chars "MODULE_BREAKDOWN") text).map parseModuleLine
    if architecture == architecturePlaceholder then
      match jsonExtractObj text with
      | some fs => .ok (designOfObj fs)
      | none =>
        .ok (designNormalResult architecture expectedBehavior
          simplifications mock_components module_breakdown)
    else
      .ok (designNormalResult architecture expectedBehavior
        simplifications mock_components module_breakdown)

-- ===========================================================================
-- Notebook parsers
-- (src/services/orchestratorService.ts:602-670 `parseMarkdownNotebook`;
--  src/services/geminiService.ts:485-533 `parseMarkdownNotebook` and
--  :536-608 `parseCodeBlocksAsNotebook`)
-- ===========================================================================

def markerMD : List Char := chars "---CELL_MARKDOWN---"

def markerCODE : List Char := chars "---CELL_CODE---"

/-- Embedding of `text.split` on the regex `---CELL_(MARKDOWN|CODE)---` (flags g,i) reassembled: the text
before the first marker, and for each marker (in order) its kind and the
text from just after it to the next marker (or the end).  The alternation
tries `MARKDOWN` before `CODE`; matches are case-insensitive and
non-overlapping, scanning left to right. -/
def markerScan : List Char → List Char × List (CellType × List Char)
  | [] => ([], [])
  | c :: cs =>
    if startsCI markerMD (c :: cs) then
      let r := markerScan (cs.drop 18)
      ([], (CellType.markdown, r.1) :: r.2)
    else if startsCI markerCODE (c :: cs) then
      let r := markerScan (cs.drop 14)
      ([], (CellType.code, r.1) :: r.2)
    else
      let r := markerScan cs
      (c :: r.1, r.2)
termination_by l => l.length
decreasing_by all_goals (simp only [List.length_cons, List.length_drop]; omega)

/-- The marker-splitting cell loop shared verbatim by both
`parseMarkdownNotebook` versions: each marker's segment is trimmed and
kept (with the marker's kind) exactly when nonempty. -/
def markerCells (text : List Char) : List NotebookCell :=
  (markerScan text).2.filterMap (fun s =>
    let content := trim s.2
    if content.isEmpty then none else some ⟨s.1, content⟩)

/-- The `\s*(.+?)(?:\n|$)` tail of `/TITLE:\s*(.+?)(?:\n|$)/i` at the text
after `TITLE:`: the greedy whitespace run backs off until `.+?` can take a
non-newline character (without the `s` flag `.` excludes newlines), and
the lazy capture then runs to the next newline or the end.  `none` when no
backtracking choice matches (everything after the colon is newlines). -/
def titleCapAt (rest : List Char) : Option (List Char) :=
  let v := rest.dropWhile (isWs ·)
  if !v.isEmpty then
    some (v.takeWhile (fun c => !(c == '\n')))
  else
    match rest.reverse.dropWhile (· == '\n') with
    | [] => none
    | c :: _ => some [c]

/-- Embedding of `text.match(/TITLE:\s*(.+?)(?:\n|$)/i)`: the capture at the first
case-insensitive `TITLE:` occurrence where the tail can match. -/
def findTitle : List Char → Option (List Char)
  | [] => none
  | c :: cs =>
    if startsCI (chars "TITLE:") (c :: cs) then
      match titleCapAt (cs.drop 5) with
      | some cap => some cap
      | none => findTitle cs
    else
      findTitle cs

/-- The character class `[^a-zA-Z0-9_-]` replacement of the title cleanup:
every character outside the class becomes an underscore. -/
def sanitizeFileChar (c : Char) : Char :=
  if (48 ≤ c.toNat && c.toNat ≤ 57) || (65 ≤ c.toNat && c.toNat ≤ 90) ||
      (97 ≤ c.toNat && c.toNat ≤ 122) || c == '_' || c == '-' then
    c
  else
    '_'

/-- The `notebookName` produced by both `parseMarkdownNotebook` versions:
the sanitized trimmed title capture plus `.ipynb`, or the fixed default. -/
def extractNotebookName (text : List Char) : List Char :=
  match findTitle text with
  | some cap => (trim cap).map sanitizeFileChar ++ chars ".ipynb"
  | none => chars "paper_implementation.ipynb"

/-- The consuming alternation `(?:\n---|\n\n|$)` of the guide regex holds
at a suffix (the lazy capture stops just before it). -/
def guideStop (l : List Char) : Bool :=
  l.isEmpty || startsWithP (chars "\n---") l || startsWithP (chars "\n\n") l

def guideCapAux : List Char → List Char
  | [] => []
  | c :: cs => if guideStop (c :: cs) then [] else c :: guideCapAux cs

/-- The lazy `.+?` of `/GUIDE:\s*(.+?)(?:\n---|\n\n|$)/is`: a mandatory
first character (the `s` flag lets it be anything), then up to the stop. -/
def guideCap : List Char → List Char
  | [] => []
  | c :: cs => c :: guideCapAux cs

/-- The `guide` produced by both `parseMarkdownNotebook` versions: the
trimmed capture of `/GUIDE:\s*(.+?)(?:\n---|\n\n|$)/is` (structured like
`getField`: first occurrence with a nonempty tail, greedy-but-capped
whitespace run, lazy capture), or the fixed default. -/
def extractGuide (text : List Char) : List Char :=
  match findLabelRest (chars "GUIDE") text with
  | some rest => trim (guideCap (dropWsKeepOne rest))
  | none => chars "Run cells sequentially to see the implementation."

/-- The lazy fence-body capture `([\s\S]*?)```` of the code-block regex:
the content up to the first triple backtick, or `none` if there is none
(the block is unclosed and the regex cannot match here). -/
def closeFence : List Char → Option (List Char)
  | [] => none
  | c :: cs =>
    if startsWithP (chars "```") (c :: cs) then some []
    else (closeFence cs).map (fun p => c :: p)

/-- Embedding of `/```(?:python|py)?\n([\s\S]*?)```/g` scanned over the text: the text
before the first match, and for each match (in order) its fence body and
the text from after its closing fence to the next match (or the end).
The language alternation tries `python`, then `py`, then nothing, and is
case-sensitive. -/
def fenceScan : List Char → List Char × List (List Char × List Char)
  | [] => ([], [])
  | c :: cs =>
    if startsWithP (chars "```python\n") (c :: cs) then
      match closeFence (cs.drop 9) with
      | some content =>
        let r := fenceScan ((cs.drop 9).drop (content.length + 3))
        ([], (content, r.1) :: r.2)
      | none =>
        let r := fenceScan cs
        (c :: r.1, r.2)
    else if startsWithP (chars "```py\n") (c :: cs) then
      match closeFence (cs.drop 5) with
      | some content =>
        let r := fenceScan ((cs.drop 5).drop (content.length + 3))
        ([], (content, r.1) :: r.2)
      | none =>
        let r := fenceScan cs
        (c :: r.1, r.2)
    else if startsWithP (chars "```\n") (c :: cs) then
      match closeFence (cs.drop 3) with
      | some content =>
        let r := fenceScan ((cs.drop 3).drop (content.length + 3))
        ([], (content, r.1) :: r.2)
      | none =>
        let r := fenceScan cs
        (c :: r.1, r.2)
    else
      let r := fenceScan cs
      (c :: r.1, r.2)
termination_by l => l.length
decreasing_by all_goals (simp only [List.length_cons, List.length_drop]; omega)

/-- Embedding of `/^...$/`-free helper: the index of the first triple backtick (the
`(?=```|$)` lookahead target), or the length when there is none. -/
def firstFenceIdx : List Char → Nat
  | [] => 0
  | c :: cs => if startsWithP (chars "```") (c :: cs) then 0 else firstFenceIdx cs + 1

/-- Embedding of `.replace` of regex `---NOTEBOOK_START---.*?(?=BT|$)` (flags g,i,s; BT the triple backtick): each
case-insensitive `---NOTEBOOK_START---` and everything after it up to (but
not including) the next triple backtick, or to the end, is removed;
scanning resumes at the lookahead position. -/
def removeNBStart : List Char → List Char
  | [] => []
  | c :: cs =>
    if startsCI (chars "---NOTEBOOK_START---") (c :: cs) then
      removeNBStart ((cs.drop 19).drop (firstFenceIdx (cs.drop 19)))
    else
      c :: removeNBStart cs
termination_by l => l.length
decreasing_by all_goals (simp only [List.length_cons, List.length_drop]; omega)

/-- Embedding of `.replace(pat-regex, '')` for a fixed-string case-insensitive global
pattern (the `---NOTEBOOK_END---` regex with flags g,i and the like): remove every
non-overlapping case-insensitive occurrence, scanning left to right. -/
def removeAllCI (pat : List Char) : List Char → List Char
  | [] => []
  | c :: cs =>
    if startsCI pat (c :: cs) then removeAllCI pat (cs.drop (pat.length - 1))
    else c :: removeAllCI pat cs
termination_by l => l.length
decreasing_by all_goals (simp only [List.length_cons, List.length_drop]; omega)

/-- The index of the first newline, or the length when there is none. -/
def firstNlIdx : List Char → Nat
  | [] => 0
  | c :: cs => if c == '\n' then 0 else firstNlIdx cs + 1

/-- Embedding of `.replace` of regex `TITLE:.*?\n` (flags g,i; likewise `GUIDE:`): each case-insensitive
occurrence of the label is removed together with the rest of its line and
the newline; without a following newline the regex cannot match there. -/
def removeLabelLines (pat : List Char) : List Char → List Char
  | [] => []
  | c :: cs =>
    if startsCI pat (c :: cs) && (cs.drop (pat.length - 1)).any (· == '\n') then
      removeLabelLines pat
        ((cs.drop (pat.length - 1)).drop (firstNlIdx (cs.drop (pat.length - 1)) + 1))
    else
      c :: removeLabelLines pat cs
termination_by l => l.length
decreasing_by all_goals (simp only [List.length_cons, List.length_drop]; omega)

/-- The markdown cleanup chain applied to the text before each code block
(identical in orchestratorService.ts:642-647 and geminiService.ts:549-554):
strip `---NOTEBOOK_START---...`, `---NOTEBOOK_END---`, `TITLE:` lines and
`GUIDE:` lines, then trim. -/
def cleanBeforeText (tb : List Char) : List Char :=
  trim (removeLabelLines (chars "GUIDE:")
    (removeLabelLines (chars "TITLE:")
      (removeAllCI (chars "---NOTEBOOK_END---") (removeNBStart tb))))

/-- The code-block fallback loop shared by both parsers: for each fence
match, the trimmed-and-cleaned text before it becomes a markdown cell (if
nonempty) and its trimmed body becomes a code cell (if nonempty). -/
def fenceLoopCells : List Char → List (List Char × List Char) → List NotebookCell
  | _, [] => []
  | before, seg :: rest =>
    let tb := cleanBeforeText (trim before)
    let code := trim seg.1
    ((if tb.isEmpty then [] else [⟨CellType.markdown, tb⟩]) ++
      (if code.isEmpty then [] else [⟨CellType.code, code⟩])) ++
      fenceLoopCells seg.2 rest

/-- The text after the last fence match (`text.slice(lastIndex)`); with no
match at all this is the whole text. -/
def lastAfter : List Char → List (List Char × List Char) → List Char
  | before, [] => before
  | _, seg :: rest => lastAfter seg.2 rest

namespace OrchestratorService

/-- Embedding of `parseMarkdownNotebook` (orchestratorService.ts:602-670): title/guide
extraction, marker splitting, the code-block fallback when markers yield
no cells, and the final `< 2` error check.  This version has no
further fallback and ignores any text after the last code block. -/
def parseMarkdownNotebook (text : List Char) : Except (List Char) GeneratedContent :=
  let guide := extractGuide text
  let notebookName := extractNotebookName text
  let cells := markerCells text
  let cells2 :=
    if cells.isEmpty then
      let fs := fenceScan text
      fenceLoopCells fs.1 fs.2
    else cells
  if cells2.length < 2 then
    .error (chars ("Could not extract notebook cells from the AI response. " ++
      "Try disabling Multi-Step Generation or using a different model."))
  else
    .ok { guide := guide, notebookName := notebookName, cells := cells2 }

end OrchestratorService

namespace GeminiService

/-- Embedding of `parseCodeBlocksAsNotebook` (geminiService.ts:536-608): the code-block
loop, then the trailing text as one markdown cell (only when some cell was
already produced), then the raw-wrap last resort (a fixed markdown cell
plus the cleaned whole text as a code cell) when the loop produced
nothing, and an error only when even that text is empty. -/
def parseCodeBlocksAsNotebook (text : List Char) : Except (List Char) GeneratedContent :=
  let fs := fenceScan text
  let loopCells := fenceLoopCells fs.1 fs.2
  let remaining := trim (removeAllCI (chars "---NOTEBOOK_END---") (trim (lastAfter fs.1 fs.2)))
  let cells := loopCells ++
    (if !remaining.isEmpty && !loopCells.isEmpty then [⟨CellType.markdown, remaining⟩] else [])
  let cells2 :=
    if cells.isEmpty then
      let cleanedText := trim (removeLabelLines (chars "GUIDE:")
        (removeLabelLines (chars "TITLE:")
          (removeAllCI (chars "---NOTEBOOK_END---")
            (removeAllCI (chars "---NOTEBOOK_START---") text))))
      if cleanedText.isEmpty then []
      else
        [ ⟨CellType.markdown, chars "# Paper Implementation\n\nGenerated implementation from the research paper."⟩
        , ⟨CellType.code, cleanedText⟩ ]
    else cells
  if cells2.isEmpty then
    .error (chars ("Could not extract any code from the AI response. " ++
      "Please try again with a different model (Gemini recommended)."))
  else
    .ok { guide := chars "Run cells sequentially. Generated from raw model output."
        , notebookName := chars "paper_implementation.ipynb"
        , cells := cells2 }

/-- Embedding of `parseMarkdownNotebook` (geminiService.ts:485-533): like the
orchestrator version, but when marker splitting yields zero cells it
returns `parseCodeBlocksAsNotebook` wholesale (that parser's own guide and
name included), and its `< 2` error applies only to marker-derived cells. -/
def parseMarkdownNotebook (text : List Char) : Except (List Char) GeneratedContent :=
  let guide := extractGuide text
  let notebookName := extractNotebookName text
  let cells := markerCells text
  if cells.isEmpty then
    parseCodeBlocksAsNotebook text
  else if cells.length < 2 then
    .error (chars ("The AI response didn't contain enough content to create a notebook. " ++
      "Please try again or use a different model."))
  else
    .ok { guide := guide, notebookName := notebookName, cells := cells }

end GeminiService

-- ===========================================================================
-- Pipeline stage paper-text truncation
-- (src/services/orchestratorService.ts:679-787)
-- ===========================================================================

/-- The Stage-1 (Analyze) paper excerpt placed in the user prompt:
`paperText.substring(0, 50000)` (orchestratorService.ts:691). -/
def step1PaperExcerpt (paperText : List Char) : List Char := paperText.take 50000

/-- The Stage-2 (Design) paper excerpt placed in the user prompt:
`paperText.substring(0, 30000)` (orchestratorService.ts:727). -/
def step2PaperExcerpt (paperText : List Char) : List Char := paperText.take 30000

/-- The Stage-3 (Generate) paper excerpt placed in the user prompt:
`paperText.substring(0, 40000)` (orchestratorService.ts:781). -/
def step3PaperExcerpt (paperText : List Char) : List Char := paperText.take 40000

/-- The Stage-1 user prompt (orchestratorService.ts:691): a fixed preamble
followed by the Stage-1 paper excerpt. -/
def step1UserPrompt (paperText : List Char) : List Char :=
  chars "Analyze this research paper and extract the required information.\n\nPaper content:\n" ++
    step1PaperExcerpt paperText

-- ===========================================================================
-- Predicates and input builders used by the claim statements
-- ===========================================================================

/-- A JS property value is "populated": present (not `undefined`) and not
`null`. -/
def jsonPopulated : Option Json → Prop
  | none => False
  | some v => v ≠ Json.null

/-- Every field of a `parseAnalysisResponse` result is populated. -/
def analysisPopulated (r : AnalysisResultP) : Prop :=
  jsonPopulated r.intent ∧ jsonPopulated r.novelty ∧ jsonPopulated r.core_algorithms ∧
    jsonPopulated r.complexity ∧ jsonPopulated r.dependencies

/-- Every field of a `parseDesignResponse` result is populated. -/
def designPopulated (r : DesignResultP) : Prop :=
  jsonPopulated r.toy_architecture ∧ jsonPopulated r.simplifications ∧
    jsonPopulated r.mock_components ∧ jsonPopulated r.expected_behavior ∧
    jsonPopulated r.module_breakdown

/-- The marker spelled by the cell protocol for a given kind. -/
def markerOf : CellType → List Char
  | .markdown => markerMD
  | .code => markerCODE

/-- A marker-protocol response body: each cell as its marker followed by
its content. -/
def renderSegs : List (CellType × List Char) → List Char
  | [] => []
  | s :: rest => markerOf s.1 ++ s.2 ++ renderSegs rest

/-- A full marker-protocol response: a preamble followed by the cells. -/
def renderNotebook (pre : List Char) (segs : List (CellType × List Char)) : List Char :=
  pre ++ renderSegs segs

/-- A labeled-field analysis response containing exactly the `INTENT:` and
`NOVELTY:` lines. -/
def renderAnalysisText (a b : List Char) : List Char :=
  chars "INTENT: " ++ a ++ chars "\nNOVELTY: " ++ b

/-- The cell a marker segment contributes: dropped when its trimmed
content is empty, kept with its marker kind and trimmed content otherwise. -/
def segToCell (s : CellType × List Char) : Option NotebookCell :=
  if (trim s.2).isEmpty then none else some ⟨s.1, trim s.2⟩

-- ===========================================================================
-- THEOREMS
-- ===========================================================================

-- --- Shared string lemmas -------------------------------------------------

theorem ciEq_refl (c : Char) : ciEq c c = true := by simp [ciEq]

theorem startsCI_self_append (p r : List Char) : startsCI p (p ++ r) = true := by
  induction p with
  | nil => simp [startsCI]
  | cons c cs ih => simpa [startsCI, ciEq_refl] using ih

theorem startsCI_mono_right (p : List Char) {v : List Char} (w : List Char)
    (h : startsCI p v = true) : startsCI p (v ++ w) = true := by
  induction p generalizing v with
  | nil => simp [startsCI]
  | cons c cs ih =>
    cases v with
    | nil => simp [startsCI] at h
    | cons d ds =>
      simp only [startsCI, Bool.and_eq_true] at h
      simpa [startsCI, h.1] using ih h.2

theorem startsCI_of_append (p q : List Char) {l : List Char}
    (h : startsCI (p ++ q) l = true) : startsCI p l = true := by
  induction p generalizing l with
  | nil => simp [startsCI]
  | cons c cs ih =>
    cases l with
    | nil => simp [startsCI] at h
    | cons d ds =>
      simp only [List.cons_append, startsCI, Bool.and_eq_true] at h
      simpa [startsCI, h.1] using ih h.2

theorem startsCI_take (p l : List Char) (k : Nat) (hk : p.length ≤ k) :
    startsCI p (l.take k) = startsCI p l := by
  induction p generalizing l k with
  | nil => simp [startsCI]
  | cons c cs ih =>
    cases l with
    | nil => simp
    | cons d ds =>
      cases k with
      | zero => simp at hk
      | succ k2 =>
        simp only [List.take_succ_cons, startsCI]
        rw [ih ds k2 (by simpa using hk)]

theorem occursCI_of_startsCI {p l : List Char} (h : startsCI p l = true) :
    occursCI p l = true := by
  cases l with
  | nil => simpa [occursCI] using h
  | cons c cs => simp [occursCI, h]

theorem occursCI_append_left (p u : List Char) {t : List Char}
    (h : occursCI p t = true) : occursCI p (u ++ t) = true := by
  induction u with
  | nil => simpa using h
  | cons c cs ih => simp [occursCI, ih]

theorem occursCI_mono_right (p : List Char) {v : List Char} (w : List Char)
    (h : occursCI p v = true) : occursCI p (v ++ w) = true := by
  induction v with
  | nil =>
    simp only [occursCI] at h
    exact occursCI_of_startsCI (startsCI_mono_right p w h)
  | cons c cs ih =>
    simp only [occursCI, Bool.or_eq_true] at h
    rcases h with h | h
    · exact occursCI_of_startsCI (by simpa using startsCI_mono_right p w h)
    · simp [occursCI, ih h]

theorem startsCI_straddle (p v t : List Char) (hv : v ≠ [])
    (h : startsCI p (v ++ t) = true) :
    occursCI p (v ++ t.take (p.length - 1)) = true := by
  by_cases hlen : p.length ≤ v.length
  · have e : (v ++ t).take v.length = v := List.take_left v t
    have h2 := startsCI_take p (v ++ t) v.length hlen
    have h3 : startsCI p v = true := by rw [← e, h2]; exact h
    exact occursCI_of_startsCI (startsCI_mono_right p _ h3)
  · push_neg at hlen
    have hv1 : 1 ≤ v.length := List.length_pos.mpr hv
    have h1 : startsCI p ((v ++ t).take p.length) = true := by
      rw [startsCI_take p _ p.length le_rfl]; exact h
    have e : (v ++ t).take p.length = v ++ t.take (p.length - v.length) := by
      rw [List.take_append_eq_append_take, List.take_of_length_le (le_of_lt hlen)]
    rw [e] at h1
    have hsplit : t.take (p.length - 1) =
        t.take (p.length - v.length) ++ ((t.take (p.length - 1)).drop (p.length - v.length)) := by
      conv_lhs => rw [← List.take_append_drop (p.length - v.length) (t.take (p.length - 1))]
      rw [List.take_take]
      congr 2
      omega
    rw [hsplit, ← List.append_assoc]
    exact occursCI_of_startsCI (startsCI_mono_right p _ h1)

theorem findLabelRest_append (label u t : List Char)
    (h : occursCI (label ++ [':']) (u ++ t.take label.length) = false) :
    findLabelRest label (u ++ t) = findLabelRest label t := by
  induction u with
  | nil => simp
  | cons c cs ih =>
    rw [List.cons_append] at h
    simp only [occursCI, Bool.or_eq_false_iff] at h
    obtain ⟨h1, h2⟩ := h
    have hs : startsCI (label ++ [':']) (c :: (cs ++ t)) = false := by
      cases hb : startsCI (label ++ [':']) (c :: (cs ++ t)) with
      | false => rfl
      | true =>
        exfalso
        have hst := startsCI_straddle (label ++ [':']) (c :: cs) t
          (by simp) (by simpa using hb)
        have hlen : (label ++ [':']).length - 1 = label.length := by simp
        rw [hlen, List.cons_append] at hst
        simp [occursCI, h1, h2] at hst
    rw [List.cons_append]
    simp only [findLabelRest, hs, Bool.false_and, Bool.and_eq_true]
    simpa using ih h2

theorem findLabelRest_none (label t : List Char)
    (h : occursCI (label ++ [':']) t = false) : findLabelRest label t = none := by
  induction t with
  | nil => rfl
  | cons c cs ih =>
    simp only [occursCI, Bool.or_eq_false_iff] at h
    simp [findLabelRest, h.1, ih h.2]

theorem findLabelRest_here (label rest : List Char) (hr : rest ≠ []) :
    findLabelRest label (label ++ ':' :: rest) = some rest := by
  have hform : label ++ ':' :: rest = (label ++ [':']) ++ rest := by simp
  obtain ⟨c, cs, hcc⟩ : ∃ c cs, label ++ ':' :: rest = c :: cs := by
    cases hl : label ++ ':' :: rest with
    | nil => exact absurd hl (by simp)
    | cons c cs => exact ⟨c, cs, rfl⟩
  have hne : rest.isEmpty = false := by
    cases rest with
    | nil => exact absurd rfl hr
    | cons r rs => rfl
  rw [hcc]
  have hs : startsCI (label ++ [':']) (c :: cs) = true := by
    rw [← hcc, hform]; exact startsCI_self_append _ _
  have hd : (c :: cs).drop (label.length + 1) = rest := by
    rw [← hcc, hform]
    have hlen : (label ++ [':']).length = label.length + 1 := by simp
    rw [← hlen, List.drop_left]
  simp [findLabelRest, hs, hd, hne]

-- --- C5: retry invocation counts ------------------------------------------

theorem runRetry_all_retryable {ε α : Type} (fn : Nat → Except ε α) (retryable : ε → Bool)
    (es : Nat → ε) :
    ∀ r attempt,
      (∀ i, attempt ≤ i → i ≤ attempt + r → fn i = .error (es i) ∧ retryable (es i) = true) →
      runRetry fn retryable attempt r = (.error (es (attempt + r)), r + 1) := by
  intro r
  induction r with
  | zero =>
    intro attempt h
    have h0 := h attempt le_rfl (by omega)
    simp [runRetry, h0.1]
  | succ k ih =>
    intro attempt h
    have h0 := h attempt le_rfl (by omega)
    have hrec := ih (attempt + 1) (fun i hi1 hi2 => h i (by omega) (by omega))
    have hidx : attempt + 1 + k = attempt + (k + 1) := by omega
    rw [hidx] at hrec
    simp [runRetry, h0.1, h0.2, hrec]

/-- **C5.** For `maxAttempts = n ≥ 1`: when every invocation raises a
retryable error, `withRetry` invokes the operation exactly `n` times and
re-raises the `n`-th error unchanged; when the first invocation raises a
non-retryable error, exactly one invocation occurs and that error is
re-raised unchanged. -/
theorem withRetry_invocation_counts {ε α : Type} (fn : Nat → Except ε α)
    (retryable : ε → Bool) (es : Nat → ε) (e : ε) (n : Nat) (hn : 1 ≤ n) :
    ((∀ i, 1 ≤ i → i ≤ n → fn i = .error (es i) ∧ retryable (es i) = true) →
      withRetry fn retryable n = (.error (es n), n)) ∧
    (fn 1 = .error e → retryable e = false →
      withRetry fn retryable n = (.error e, 1)) := by
  constructor
  · intro h
    have hrun := runRetry_all_retryable fn retryable es (n - 1) 1
      (fun i h1 h2 => h i h1 (by omega))
    have e1 : 1 + (n - 1) = n := by omega
    have e2 : n - 1 + 1 = n := by omega
    rw [e1, e2] at hrun
    rw [withRetry, hrun]
  · intro h1 h2
    rw [withRetry]
    cases hnn : n - 1 with
    | zero => simp [runRetry, h1]
    | succ k => simp [runRetry, h1, h2]

/-- Witness for C5 at concrete operations: an always-retryable-failing
operation under `maxAttempts = 3`, and a non-retryable failure. -/
theorem withRetry_invocation_counts_witness :
    withRetry (fun i => (.error i : Except Nat Unit)) (fun _ => true) 3 = (.error 3, 3) ∧
    withRetry (fun _ => (.error 7 : Except Nat Unit)) (fun _ => false) 3 = (.error 7, 1) := by
  constructor
  · exact (withRetry_invocation_counts (fun i => (.error i : Except Nat Unit))
      (fun _ => true) (fun i => i) 0 3 (by norm_num)).1
      (fun i h1 h2 => ⟨rfl, rfl⟩)
  · exact (withRetry_invocation_counts (fun _ => (.error 7 : Except Nat Unit))
      (fun _ => false) (fun _ => 7) 7 3 (by norm_num)).2 rfl rfl

-- --- C6: delay formula, monotonicity, jitter bound ------------------------

/-- **C6 (amended).** The pre-jitter delay is
`min(initialDelayMs * backoffMultiplier^(attempt-1), maxDelayMs)`; below
the cap the pre-jitter delay multiplies by `backoffMultiplier` per
attempt; the realized delay differs from the pre-jitter delay by at most
25% of it plus the half-unit rounding slack, and never exceeds
`maxDelayMs * 1.25 + 1/2` (the unamended `maxDelayMs * 1.25` bound fails
by the rounding slack, see the counterexample). -/
theorem calculateDelay_formula_monotonicity_bound (attempt : Nat)
    (initialDelayMs maxDelayMs multiplier rand : ℚ)
    (h1 : 1 ≤ attempt) (h2 : 0 ≤ initialDelayMs) (h3 : 0 ≤ maxDelayMs)
    (h4 : 0 ≤ multiplier) (h5 : 0 ≤ rand) (h6 : rand < 1) :
    preJitterDelay attempt initialDelayMs maxDelayMs multiplier =
      min (initialDelayMs * multiplier ^ (attempt - 1)) maxDelayMs ∧
    (1 ≤ multiplier → initialDelayMs * multiplier ^ attempt ≤ maxDelayMs →
      preJitterDelay (attempt + 1) initialDelayMs maxDelayMs multiplier =
        multiplier * preJitterDelay attempt initialDelayMs maxDelayMs multiplier) ∧
    |(calculateDelay attempt initialDelayMs maxDelayMs multiplier rand : ℚ) -
        preJitterDelay attempt initialDelayMs maxDelayMs multiplier| ≤
      preJitterDelay attempt initialDelayMs maxDelayMs multiplier / 4 + 1 / 2 ∧
    (calculateDelay attempt initialDelayMs maxDelayMs multiplier rand : ℚ) ≤
      maxDelayMs * (5 / 4) + 1 / 2 := by
  have hpre0 : 0 ≤ preJitterDelay attempt initialDelayMs maxDelayMs multiplier :=
    le_min (mul_nonneg h2 (pow_nonneg h4 _)) h3
  have hpremax : preJitterDelay attempt initialDelayMs maxDelayMs multiplier ≤ maxDelayMs :=
    min_le_right _ _
  set pre := preJitterDelay attempt initialDelayMs maxDelayMs multiplier with hpre
  have hjit : |pre * (1 / 4) * (rand * 2 - 1)| ≤ pre / 4 := by
    rw [abs_mul]
    have hx : |rand * 2 - 1| ≤ 1 := by
      rw [abs_le]; constructor <;> nlinarith
    have h14 : |pre * (1 / 4)| = pre / 4 := by
      rw [abs_of_nonneg (by nlinarith)]; ring
    calc |pre * (1 / 4)| * |rand * 2 - 1| ≤ |pre * (1 / 4)| * 1 := by
          exact mul_le_mul_of_nonneg_left hx (abs_nonneg _)
      _ = pre / 4 := by rw [mul_one, h14]
  have hround : |(calculateDelay attempt initialDelayMs maxDelayMs multiplier rand : ℚ) -
      (pre + pre * (1 / 4) * (rand * 2 - 1))| ≤ 1 / 2 := by
    have habs := abs_sub_round (pre + pre * (1 / 4) * (rand * 2 - 1))
    rw [abs_sub_comm] at habs
    simpa [calculateDelay, ← hpre] using habs
  refine ⟨rfl, ?_, ?_, ?_⟩
  · intro hm hcap
    have hple : initialDelayMs * multiplier ^ (attempt - 1) ≤
        initialDelayMs * multiplier ^ attempt := by
      exact mul_le_mul_of_nonneg_left (pow_le_pow_right₀ hm (by omega)) h2
    have e1 : preJitterDelay (attempt + 1) initialDelayMs maxDelayMs multiplier =
        initialDelayMs * multiplier ^ attempt := by
      simp only [preJitterDelay, Nat.add_sub_cancel]
      exact min_eq_left hcap
    have e2 : pre = initialDelayMs * multiplier ^ (attempt - 1) := by
      rw [hpre]
      exact min_eq_left (le_trans hple hcap)
    rw [e1, e2]
    have ha : attempt - 1 + 1 = attempt := by omega
    calc initialDelayMs * multiplier ^ attempt
        = initialDelayMs * multiplier ^ (attempt - 1 + 1) := by rw [ha]
      _ = multiplier * (initialDelayMs * multiplier ^ (attempt - 1)) := by
          rw [pow_succ]; ring
  · calc |(calculateDelay attempt initialDelayMs maxDelayMs multiplier rand : ℚ) - pre| ≤
        |(calculateDelay attempt initialDelayMs maxDelayMs multiplier rand : ℚ) -
          (pre + pre * (1 / 4) * (rand * 2 - 1))| +
          |(pre + pre * (1 / 4) * (rand * 2 - 1)) - pre| := abs_sub_le _ _ _
      _ ≤ 1 / 2 + pre / 4 := by
          gcongr
          simpa using hjit
      _ = pre / 4 + 1 / 2 := by ring
  · have hup : (calculateDelay attempt initialDelayMs maxDelayMs multiplier rand : ℚ) ≤
        (pre + pre * (1 / 4) * (rand * 2 - 1)) + 1 / 2 := by
      have := abs_le.mp hround
      linarith [this.2]
    have hj2 : pre * (1 / 4) * (rand * 2 - 1) ≤ pre / 4 :=
      le_trans (le_abs_self _) hjit
    nlinarith

/-- Witness for C6 at a concrete configuration (the defaults of the
source: initial 1000ms, max 10000ms, multiplier 2) and `rand = 1/2`. -/
theorem calculateDelay_formula_monotonicity_bound_witness :
    preJitterDelay 2 1000 10000 2 = min (1000 * 2 ^ 1) 10000 ∧
    preJitterDelay 3 1000 10000 2 = 2 * preJitterDelay 2 1000 10000 2 ∧
    (calculateDelay 2 1000 10000 2 (1 / 2) : ℚ) ≤ 10000 * (5 / 4) + 1 / 2 := by
  have h := calculateDelay_formula_monotonicity_bound 2 1000 10000 2 (1 / 2)
    (by norm_num) (by norm_num) (by norm_num) (by norm_num) (by norm_num) (by norm_num)
  exact ⟨h.1, h.2.1 (by norm_num) (by norm_num), h.2.2.2⟩

/-- **C6 counterexample.** At `attempt = 1`, `initialDelayMs = maxDelayMs = 3`,
`multiplier = 2` and `Math.random() = 0.9` the realized delay is `4`,
which exceeds `maxDelayMs * 1.25 = 3.75`: the claim's "never exceeds
`maxDelayMs * 1.25`" fails because of the final integer rounding. -/
theorem calculateDelay_exceeds_cap_counterexample :
    calculateDelay 1 3 3 2 (9 / 10) = 4 ∧
    ¬ ((calculateDelay 1 3 3 2 (9 / 10) : ℚ) ≤ 3 * (5 / 4)) ∧
    0 ≤ (9 / 10 : ℚ) ∧ (9 / 10 : ℚ) < 1 := by
  refine ⟨?_, ?_, by norm_num, by norm_num⟩
  · norm_num [calculateDelay, preJitterDelay, round_eq]
  · norm_num [calculateDelay, preJitterDelay, round_eq]

-- --- C10: Anthropic max-token cap -----------------------------------------

/-- **C10.** The `max_tokens` placed in the Anthropic request body equals
`min(config.maxTokens || 4096, M)` with `M = 8192` for models whose
identifier contains `3-5` or `3.5` and `M = 4096` otherwise; the
configured value is never forwarded above the per-model cap. -/
theorem anthropic_max_tokens_capped (model : List Char) (configMaxTokens : Option Nat) :
    anthropicMaxTokens model configMaxTokens =
      min (jsOrNat configMaxTokens 4096) (anthropicModelMaxTokens model) ∧
    anthropicMaxTokens model configMaxTokens ≤ anthropicModelMaxTokens model ∧
    anthropicMaxTokens model configMaxTokens ≤ 8192 ∧
    (occursSub (chars "3-5") model = false → occursSub (chars "3.5") model = false →
      anthropicMaxTokens model configMaxTokens ≤ 4096) := by
  refine ⟨rfl, min_le_right _ _, ?_, ?_⟩
  · have hm : anthropicModelMaxTokens model ≤ 8192 := by
      unfold anthropicModelMaxTokens; split <;> norm_num
    exact le_trans (min_le_right _ _) hm
  · intro ha hb
    have hm : anthropicModelMaxTokens model = 4096 := by
      unfold anthropicModelMaxTokens; simp [ha, hb]
    exact hm ▸ min_le_right _ _

/-- Witness for C10 at concrete model identifiers: a Claude 3 model is
capped to 4096 and a Claude 3.5 model to 8192 even when the configured
maximum is 100000. -/
theorem anthropic_max_tokens_capped_witness :
    anthropicMaxTokens (chars "claude-3-opus-20240229") (some 100000) ≤ 4096 ∧
    anthropicMaxTokens (chars "claude-3-5-sonnet-20240620") (some 100000) ≤ 8192 := by
  constructor
  · exact (anthropic_max_tokens_capped (chars "claude-3-opus-20240229")
      (some 100000)).2.2.2 (by decide) (by decide)
  · exact (anthropic_max_tokens_capped (chars "claude-3-5-sonnet-20240620")
      (some 100000)).2.2.1

-- --- C1: stage-specific truncation budgets --------------------------------

/-- **C1 (amended).** Paper text is truncated to a distinct stage-specific
character budget at each stage — 50000 for Stage 1 (Analyze), 30000 for
Stage 2 (Design), 40000 for Stage 3 (Generate) — so the smallest budget
belongs to Stage 2 and the largest to Stage 1 (not, as claimed, smallest
at Stage 1 and largest at Stage 3). -/
theorem stageExcerpts_distinct_budgets (t : List Char) (h : 50000 ≤ t.length) :
    (step1PaperExcerpt t).length = 50000 ∧
    (step2PaperExcerpt t).length = 30000 ∧
    (step3PaperExcerpt t).length = 40000 ∧
    (step2PaperExcerpt t).length < (step3PaperExcerpt t).length ∧
    (step3PaperExcerpt t).length < (step1PaperExcerpt t).length := by
  simp only [step1PaperExcerpt, step2PaperExcerpt, step3PaperExcerpt, List.length_take]
  omega

/-- Witness for C1 on a 50000-character paper text. -/
theorem stageExcerpts_distinct_budgets_witness :
    (step1PaperExcerpt (List.replicate 50000 'a')).length = 50000 ∧
    (step2PaperExcerpt (List.replicate 50000 'a')).length = 30000 ∧
    (step3PaperExcerpt (List.replicate 50000 'a')).length = 40000 ∧
    (step2PaperExcerpt (List.replicate 50000 'a')).length <
      (step3PaperExcerpt (List.replicate 50000 'a')).length ∧
    (step3PaperExcerpt (List.replicate 50000 'a')).length <
      (step1PaperExcerpt (List.replicate 50000 'a')).length :=
  stageExcerpts_distinct_budgets (List.replicate 50000 'a')
    (by rw [List.length_replicate])

/-- **C1 counterexample.** On a 50000-character paper text the Stage-1
excerpt (50000 characters) is strictly longer than the Stage-3 excerpt
(40000 characters), refuting "smallest budget used for Stage 1 and the
largest budget used for Stage 3". -/
theorem stageExcerpts_stage1_not_smallest :
    (step1PaperExcerpt (List.replicate 50000 'a')).length = 50000 ∧
    (step3PaperExcerpt (List.replicate 50000 'a')).length = 40000 ∧
    ¬ ((step1PaperExcerpt (List.replicate 50000 'a')).length ≤
        (step3PaperExcerpt (List.replicate 50000 'a')).length) := by
  simp only [step1PaperExcerpt, step3PaperExcerpt, List.length_take, List.length_replicate]
  omega

-- --- C4: adapter error behavior -------------------------------------------

/-- **C4 (amended).** Each cited gateway adapter raises exactly on a
non-OK HTTP response and otherwise returns the extracted text field —
which may be the empty string when a 200 response carries no usable text
(the claimed "never returns an empty string" fails, see the
counterexample).  The Gemini adapter extracts from a delivered SDK
response without raising, yielding the empty string when `response.text`
is missing or empty. -/
theorem adapters_error_exactly_on_http_failure (og : GeminiResponse)
    (oo : OpenAIResponse) (ol : OllamaResponse) :
    (og.text = none ∨ og.text = some [] → callGemini og = []) ∧
    (oo.ok = true → ∃ s, callOpenAI oo = .ok s) ∧
    (oo.ok = false → ∃ e, callOpenAI oo = .error e) ∧
    (ol.ok = true → ∃ s, callOllama ol = .ok s) ∧
    (ol.ok = false → ∃ e, callOllama ol = .error e) := by
  refine ⟨?_, ?_, ?_, ?_, ?_⟩
  · rintro (h | h) <;> simp [callGemini, h, jsOrStr]
  · intro h
    exact ⟨jsOrStr ((oo.choicesContent.head?.getD none).getD []) [],
      by simp [callOpenAI, h]⟩
  · intro h
    exact ⟨jsOrStr (oo.errorMessage.getD [])
        (chars "OpenAI API failed: " ++ (toString oo.status).data),
      by simp [callOpenAI, h]⟩
  · intro h
    exact ⟨jsOrStr (ol.messageContent.getD []) [], by simp [callOllama, h]⟩
  · intro h
    exact ⟨chars "Ollama request failed: " ++ (toString ol.status).data,
      by simp [callOllama, h]⟩

/-- Witness for C4 at concrete responses: an OK response returns text, a
401 and a 500 response raise. -/
theorem adapters_error_exactly_on_http_failure_witness :
    (∃ s, callOpenAI ⟨true, 200, none, []⟩ = .ok s) ∧
    (∃ e, callOpenAI ⟨false, 401, some (chars "Incorrect API key"), []⟩ = .error e) ∧
    (∃ e, callOllama ⟨false, 500, none⟩ = .error e) := by
  have h := adapters_error_exactly_on_http_failure ⟨none⟩ ⟨true, 200, none, []⟩
    ⟨false, 500, none⟩
  have h2 := adapters_error_exactly_on_http_failure ⟨none⟩
    ⟨false, 401, some (chars "Incorrect API key"), []⟩ ⟨false, 500, none⟩
  exact ⟨h.2.1 rfl, h2.2.2.1 rfl, h.2.2.2.2 rfl⟩

/-- **C4 counterexample.** A 200 response with no usable text field makes
`callOpenAI` and `callOllama` return `.ok ""` and `callGemini` return
`""` — the adapters do return the empty string, contradicting the claim
that they either raise or return non-empty text. -/
theorem adapters_return_empty_string :
    callOpenAI ⟨true, 200, none, []⟩ = .ok [] ∧
    callOllama ⟨true, 200, none⟩ = .ok [] ∧
    callGemini ⟨none⟩ = [] :=
  ⟨rfl, rfl, rfl⟩

-- --- C9: notebook serialization -------------------------------------------

/-- **C9.** In the notebook structure built by `createNotebookBlob`, every
cell's `source` is its text split on newlines with `"\n"` appended to
every line, its `outputs` is the empty array and its `execution_count` is
null; the `cells` array holds the serialized cells in order. -/
theorem createNotebook_cell_serialization (cells : List NotebookCell)
    (cell : NotebookCell) (h : cell ∈ cells) :
    (∃ top, createNotebookIpynb cells = .obj top ∧
      Json.lookup (chars "cells") top = some (.arr (cells.map cellToIpynb))) ∧
    (∃ fields, cellToIpynb cell = .obj fields ∧
      Json.lookup (chars "source") fields =
        some (.arr ((splitOnChar '\n' cell.source).map (fun line => .str (line ++ ['\n'])))) ∧
      Json.lookup (chars "execution_count") fields = some .null ∧
      Json.lookup (chars "outputs") fields = some (.arr [])) :=
  ⟨⟨_, rfl, rfl⟩, ⟨_, rfl, rfl, rfl, rfl⟩⟩

/-- Witness for C9 on the spec's demo content: serializing
`[markdown "# Demo", code "print(1)"]` gives `cells[1].source =
["print(1)\n"]` and `cells[1].execution_count = null`. -/
theorem createNotebook_cell_serialization_witness :
    ∃ fields, cellToIpynb ⟨CellType.code, chars "print(1)"⟩ = .obj fields ∧
      Json.lookup (chars "source") fields = some (.arr [.str (chars "print(1)\n")]) ∧
      Json.lookup (chars "execution_count") fields = some .null := by
  obtain ⟨-, ⟨fields, hf, hs, he, -⟩⟩ :=
    createNotebook_cell_serialization
      [⟨CellType.markdown, chars "# Demo"⟩, ⟨CellType.code, chars "print(1)"⟩]
      ⟨CellType.code, chars "print(1)"⟩ (by simp)
  refine ⟨fields, hf, ?_, he⟩
  rw [hs]
  rfl

-- --- C7: labeled-field parsers populate every field (amended) -------------

/-- **C7 (amended).** `parseAnalysisResponse` and `parseDesignResponse`
return fully-populated results (placeholder text or default entries for
any field whose extraction failed) on every path except the embedded-JSON
fallback, where the parsed object is returned under an unchecked cast and
may lack any of the fields (the unamended claim fails there, see the
counterexample). -/
theorem labeledParsers_populate_or_raw_json (text : List Char) :
    (∀ r, parseAnalysisResponse text = .ok r →
      analysisPopulated r ∨ ∃ fs, jsonExtractObj text = some fs ∧ r = analysisOfObj fs) ∧
    (∀ r, parseDesignResponse text = .ok r →
      designPopulated r ∨ ∃ fs, jsonExtractObj text = some fs ∧ r = designOfObj fs) := by
  constructor
  · intro r h
    simp only [parseAnalysisResponse] at h
    split at h
    · exact absurd h (by simp)
    · split at h
      · split at h
        next fs heq =>
          right
          exact ⟨fs, heq, by simpa using h.symm⟩
        next heq =>
          left
          obtain rfl : _ = r := by simpa using h
          simp [analysisPopulated, jsonPopulated]
      · left
        obtain rfl : _ = r := by simpa using h
        simp [analysisPopulated, jsonPopulated]
  · intro r h
    simp only [parseDesignResponse] at h
    split at h
    · exact absurd h (by simp)
    · split at h
      · split at h
        next fs heq =>
          right
          exact ⟨fs, heq, by simpa using h.symm⟩
        next heq =>
          left
          obtain rfl : _ = r := by simpa using h
          simp [designPopulated, designNormalResult, jsonPopulated]
      · left
        obtain rfl : _ = r := by simpa using h
        simp [designPopulated, designNormalResult, jsonPopulated]

/-- Witness for C7 on a well-formed labeled response (no JSON fallback):
the parsed result is fully populated. -/
theorem labeledParsers_populate_or_raw_json_witness :
    (analysisPopulated
        { intent := some (.str (chars "A")), novelty := some (.str (chars "B"))
        , core_algorithms := some (.arr []), complexity := some (.str (chars "Moderate"))
        , dependencies := some (.arr []) } ∨
      ∃ fs, jsonExtractObj (chars "INTENT: A\nNOVELTY: B") = some fs ∧
        ({ intent := some (.str (chars "A")), novelty := some (.str (chars "B"))
         , core_algorithms := some (.arr []), complexity := some (.str (chars "Moderate"))
         , dependencies := some (.arr []) } : AnalysisResultP) = analysisOfObj fs) :=
  (labeledParsers_populate_or_raw_json (chars "INTENT: A\nNOVELTY: B")).1
    { intent := some (.str (chars "A")), novelty := some (.str (chars "B"))
    , core_algorithms := some (.arr []), complexity := some (.str (chars "Moderate"))
    , dependencies := some (.arr []) } rfl

/-- **C7 counterexample.** On the input `"\x7b\x7d"` (an empty JSON object
with no labeled fields) both parsers take the embedded-JSON fallback and
return an object with every field `undefined` — not populated. -/
theorem labeledParsers_json_path_unpopulated :
    parseAnalysisResponse (chars "\x7b\x7d") =
      .ok { intent := none, novelty := none, core_algorithms := none
          , complexity := none, dependencies := none } ∧
    ¬ analysisPopulated
        { intent := none, novelty := none, core_algorithms := none
        , complexity := none, dependencies := none } ∧
    parseDesignResponse (chars "\x7b\x7d") =
      .ok { toy_architecture := none, simplifications := none, mock_components := none
          , expected_behavior := none, module_breakdown := none } ∧
    ¬ designPopulated
        { toy_architecture := none, simplifications := none, mock_components := none
        , expected_behavior := none, module_breakdown := none } :=
  ⟨rfl, by simp [analysisPopulated, jsonPopulated], rfl,
    by simp [designPopulated, jsonPopulated]⟩

-- --- Support lemmas for the labeled-field extraction claim ----------------

theorem takeWhile_append_all {α} (p : α → Bool) (u v : List α)
    (hu : ∀ c ∈ u, p c = true) :
    (u ++ v).takeWhile p = u ++ v.takeWhile p ∧ (u ++ v).dropWhile p = v.dropWhile p := by
  induction u with
  | nil => simp
  | cons c cs ih =>
    have hc : p c = true := hu c (by simp)
    have ihh := ih (fun d hd => hu d (by simp [hd]))
    simp [List.takeWhile_cons, List.dropWhile_cons, hc, ihh.1, ihh.2]

theorem takeWhile_head_false {α} (p : α → Bool) (v : List α)
    (hv : ∀ c ∈ v.head?, p c = false) :
    v.takeWhile p = [] ∧ v.dropWhile p = v := by
  cases v with
  | nil => simp
  | cons c cs =>
    have hc : p c = false := hv c (by simp)
    simp [List.takeWhile_cons, List.dropWhile_cons, hc]

theorem captureAux_append (u t : List Char) (hu : ∀ c ∈ u, (c == '\n') = false)
    (ht : lookLabelBreak t = true) : captureAux (u ++ t) = u := by
  induction u with
  | nil =>
    cases t with
    | nil => rfl
    | cons c cs => simp [captureAux, ht]
  | cons c cs ih =>
    have hc : (c == '\n') = false := hu c (by simp)
    have hlb : lookLabelBreak (c :: (cs ++ t)) = false := by
      simp [lookLabelBreak, hc]
    simp [captureAux, hlb, ih (fun d hd => hu d (by simp [hd]))]

theorem dropWsKeepOne_head_not_ws (c : Char) (l : List Char) (hc : isWs c = false) :
    dropWsKeepOne (c :: l) = c :: l := by
  simp [dropWsKeepOne, hc]

theorem dropWsKeepOne_ws_cons (c : Char) (l : List Char) (hc : isWs c = true)
    (hl : l ≠ []) : dropWsKeepOne (c :: l) = dropWsKeepOne l := by
  have : l.isEmpty = false := by cases l with | nil => exact absurd rfl hl | cons d ds => rfl
  simp [dropWsKeepOne, hc, this]

theorem trimLeft_head_not_ws (c : Char) (l : List Char) (hc : isWs c = false) :
    trimLeft (c :: l) = c :: l := by
  simp [trimLeft, List.dropWhile_cons, hc]

theorem trim_head_not_ws_ne_nil (c : Char) (l : List Char) (hc : isWs c = false) :
    (trim (c :: l)).isEmpty = false := by
  rw [trim, trimLeft_head_not_ws c l hc]
  cases hx : trimRight (c :: l) with
  | cons d ds => rfl
  | nil =>
    exfalso
    have : (c :: l).reverse.dropWhile (isWs ·) = [] := by
      have := congrArg List.reverse hx
      simpa [trimRight] using this
    have hall := List.dropWhile_eq_nil_iff.mp this
    have := hall c (by simp)
    simp [hc] at this

theorem trim_eq_self_head_not_ws (a : List Char) (ha : a ≠ []) (hta : trim a = a) :
    ∃ c cs, a = c :: cs ∧ isWs c = false := by
  obtain ⟨c, cs, rfl⟩ : ∃ c cs, a = c :: cs := by
    cases a with
    | nil => exact absurd rfl ha
    | cons c cs => exact ⟨c, cs, rfl⟩
  refine ⟨c, cs, rfl, ?_⟩
  cases hc : isWs c with
  | false => rfl
  | true =>
    exfalso
    have hlen1 : (trimLeft (c :: cs)).length ≤ cs.length := by
      simp only [trimLeft, List.dropWhile_cons, hc, if_true]
      exact (List.dropWhile_sublist _).length_le
    have hlen2 : (trim (c :: cs)).length ≤ (trimLeft (c :: cs)).length := by
      simp only [trim, trimRight]
      calc ((trimLeft (c :: cs)).reverse.dropWhile (isWs ·)).reverse.length
          = ((trimLeft (c :: cs)).reverse.dropWhile (isWs ·)).length := by
            rw [List.length_reverse]
        _ ≤ (trimLeft (c :: cs)).reverse.length := (List.dropWhile_sublist _).length_le
        _ = (trimLeft (c :: cs)).length := by rw [List.length_reverse]
    have := congrArg List.length hta
    simp only [List.length_cons] at this
    omega

theorem startsCI_congr (p q : List Char)
    (hpq : p.map (fun c => lowerNat c.toNat) = q.map (fun c => lowerNat c.toNat)) :
    ∀ l, startsCI p l = startsCI q l := by
  induction p generalizing q with
  | nil =>
    intro l
    cases q with
    | nil => rfl
    | cons y ys => simp at hpq
  | cons x xs ih =>
    intro l
    cases q with
    | nil => simp at hpq
    | cons y ys =>
      simp only [List.map_cons, List.cons.injEq] at hpq
      cases l with
      | nil => rfl
      | cons c cs =>
        simp only [startsCI, ciEq, hpq.1, ih ys hpq.2 cs]

theorem occursCI_congr (p q : List Char)
    (hpq : p.map (fun c => lowerNat c.toNat) = q.map (fun c => lowerNat c.toNat)) :
    ∀ l, occursCI p l = occursCI q l := by
  intro l
  induction l with
  | nil => simp [occursCI, startsCI_congr p q hpq]
  | cons c cs ih => simp [occursCI, startsCI_congr p q hpq, ih]

-- --- C8: labeled-field extraction for INTENT/NOVELTY (amended) ------------

/-- **C8 (amended).** For a response consisting of an `INTENT:` line and a
`NOVELTY:` line (trimmed single-line values, with no spurious
case-insensitive occurrence of `NOVELTY:` before the real one),
`parseAnalysisResponse` returns exactly those values; a field value runs
to the next *label-shaped* line (any newline followed by a colon-ended
letters/underscore run — not only recognized labels, see the
counterexample), and for the labels absent from the text the string-valued
`complexity` receives its `"Moderate"` placeholder while the list-valued
fields receive the empty list: their literal in-code defaults
(`['Algorithm']`) are unreachable because a JS array is always truthy.
No exception is raised. -/
theorem parseAnalysis_labeled_extraction (a b : List Char)
    (ha : a ≠ []) (hb : b ≠ [])
    (hta : trim a = a) (htb : trim b = b)
    (hna : ∀ c ∈ a, c ≠ '\n') (hnb : ∀ c ∈ b, c ≠ '\n')
    (hnov : occursCI (chars "NOVELTY:") (chars "INTENT: " ++ a ++ chars "\nNOVELTY") = false)
    (hcore : occursCI (chars "CORE_ALGORITHMS:") (renderAnalysisText a b) = false)
    (hcomp : occursCI (chars "COMPLEXITY:") (renderAnalysisText a b) = false)
    (hdep : occursCI (chars "DEPENDENCIES:") (renderAnalysisText a b) = false)
    (hpl : a ≠ intentPlaceholder) :
    parseAnalysisResponse (renderAnalysisText a b) =
      .ok { intent := some (.str a), novelty := some (.str b)
          , core_algorithms := some (.arr []), complexity := some (.str (chars "Moderate"))
          , dependencies := some (.arr []) } := by
  have e1 : chars "INTENT: " = chars "INTENT" ++ [':', ' '] := rfl
  have e2 : chars "NOVELTY: " = chars "NOVELTY" ++ [':', ' '] := rfl
  have e3 : chars "\nNOVELTY: " = '\n' :: chars "NOVELTY: " := rfl
  obtain ⟨c0, a2, haeq, hc0⟩ := trim_eq_self_head_not_ws a ha hta
  obtain ⟨d0, b2, hbeq, hd0⟩ := trim_eq_self_head_not_ws b hb htb
  have hna2 : ∀ c ∈ a, (c == '\n') = false := fun c hc => by
    simpa using hna c hc
  have hnb2 : ∀ c ∈ b, (c == '\n') = false := fun c hc => by
    simpa using hnb c hc
  have hsplit2 : chars "NOVELTY: " ++ b = chars "NOVELTY" ++ (':' :: ' ' :: b) := by
    rw [e2]; simp
  have htw := takeWhile_append_all isLabelChar (chars "NOVELTY") (':' :: ' ' :: b)
    (by decide)
  have hlook : lookLabelBreak (chars "\nNOVELTY: " ++ b) = true := by
    rw [e3, List.cons_append, hsplit2]
    have hcol : isLabelChar ':' = false := by decide
    have htk : (':' :: ' ' :: b).takeWhile isLabelChar = [] := by
      simp [List.takeWhile_cons, hcol]
    have hdk : (':' :: ' ' :: b).dropWhile isLabelChar = ':' :: ' ' :: b := by
      simp [List.dropWhile_cons, hcol]
    simp [lookLabelBreak, htw.1, htw.2, htk, hdk]
    decide
  -- Stage A: the INTENT field
  have hA : renderAnalysisText a b =
      chars "INTENT" ++ ':' :: (' ' :: (a ++ (chars "\nNOVELTY: " ++ b))) := by
    rw [renderAnalysisText, e1]
    simp
  have hfind1 : findLabelRest (chars "INTENT") (renderAnalysisText a b) =
      some (' ' :: (a ++ (chars "\nNOVELTY: " ++ b))) := by
    rw [hA]
    exact findLabelRest_here _ _ (by simp)
  have hget1 : getField (chars "INTENT") (renderAnalysisText a b) = a := by
    simp only [getField, hfind1]
    have hdw : dropWsKeepOne (' ' :: (a ++ (chars "\nNOVELTY: " ++ b))) =
        a ++ (chars "\nNOVELTY: " ++ b) := by
      rw [dropWsKeepOne_ws_cons ' ' _ (by decide) (by simp [haeq])]
      rw [haeq, List.cons_append]
      exact dropWsKeepOne_head_not_ws c0 _ hc0
    rw [hdw, haeq, List.cons_append, capture1]
    rw [captureAux_append a2 _ (fun d hd => hna2 d (by simp [haeq, hd])) hlook]
    rw [← haeq, hta]
  -- Stage B: the NOVELTY field
  have hrender2 : renderAnalysisText a b =
      (chars "INTENT: " ++ a ++ ['\n']) ++ (chars "NOVELTY: " ++ b) := by
    rw [renderAnalysisText, e3]
    simp
  have htake7 : (chars "NOVELTY: " ++ b).take 7 = chars "NOVELTY" := by
    rw [List.take_append_of_le_length (by decide)]
    rfl
  have hocc : occursCI (chars "NOVELTY" ++ [':'])
      ((chars "INTENT: " ++ a ++ ['\n']) ++ (chars "NOVELTY: " ++ b).take
        (chars "NOVELTY").length) = false := by
    have hlen7 : (chars "NOVELTY").length = 7 := by decide
    rw [hlen7, htake7]
    have hx : chars "NOVELTY" ++ [':'] = chars "NOVELTY:" := rfl
    rw [hx]
    have hy : chars "INTENT: " ++ a ++ chars "\nNOVELTY" =
        (chars "INTENT: " ++ a ++ ['\n']) ++ chars "NOVELTY" := by
      have : chars "\nNOVELTY" = ['\n'] ++ chars "NOVELTY" := rfl
      rw [this]
      simp
    rw [← hy]
    exact hnov
  have hfind2 : findLabelRest (chars "NOVELTY") (renderAnalysisText a b) =
      some (' ' :: b) := by
    rw [hrender2, findLabelRest_append _ _ _ hocc]
    have hz : chars "NOVELTY: " ++ b = chars "NOVELTY" ++ ':' :: (' ' :: b) := by
      rw [hsplit2]
    rw [hz]
    exact findLabelRest_here _ _ (by simp)
  have hget2 : getField (chars "NOVELTY") (renderAnalysisText a b) = b := by
    simp only [getField, hfind2]
    rw [dropWsKeepOne_ws_cons ' ' _ (by decide) (by simp [hbeq])]
    rw [hbeq, dropWsKeepOne_head_not_ws d0 _ hd0, capture1]
    have : captureAux b2 = b2 := by
      have := captureAux_append b2 [] (fun d hd => hnb2 d (by simp [hbeq, hd])) (by rfl)
      simpa using this
    rw [this, ← hbeq, htb]
  -- Stage C: the absent labels
  have habsent : ∀ label : List Char,
      occursCI (label ++ [':']) (renderAnalysisText a b) = false →
      getField label (renderAnalysisText a b) = [] := by
    intro label h
    simp only [getField, findLabelRest_none label _ h]
  have hcompU : getField (chars "COMPLEXITY") (renderAnalysisText a b) = [] :=
    habsent _ (by rw [show chars "COMPLEXITY" ++ [':'] = chars "COMPLEXITY:" from rfl]; exact hcomp)
  have hcompL : getField (chars "Complexity") (renderAnalysisText a b) = [] := by
    refine habsent _ ?_
    rw [occursCI_congr (chars "Complexity" ++ [':']) (chars "COMPLEXITY" ++ [':']) (by decide)]
    rw [show chars "COMPLEXITY" ++ [':'] = chars "COMPLEXITY:" from rfl]
    exact hcomp
  have hcoreU : getField (chars "CORE_ALGORITHMS") (renderAnalysisText a b) = [] :=
    habsent _ (by
      rw [show chars "CORE_ALGORITHMS" ++ [':'] = chars "CORE_ALGORITHMS:" from rfl]
      exact hcore)
  have hdepU : getField (chars "DEPENDENCIES") (renderAnalysisText a b) = [] :=
    habsent _ (by
      rw [show chars "DEPENDENCIES" ++ [':'] = chars "DEPENDENCIES:" from rfl]
      exact hdep)
  -- Stage D: assembling the parser result
  have hne : (trim (renderAnalysisText a b)).isEmpty = false := by
    rw [show renderAnalysisText a b =
      'I' :: (chars "NTENT: " ++ a ++ chars "\nNOVELTY: " ++ b) from by
        rw [renderAnalysisText]; rfl]
    exact trim_head_not_ws_ne_nil 'I' _ (by decide)
  have haE : a.isEmpty = false := by rw [haeq]; rfl
  have hbE : b.isEmpty = false := by rw [hbeq]; rfl
  have hplB : (a == intentPlaceholder) = false := by simpa using hpl
  rw [parseAnalysisResponse]
  rw [if_neg (by rw [hne]; simp)]
  simp only [hget1, hget2, hcoreU, hdepU, hcompU, hcompL, jsOrStr, haE, hbE,
    Bool.false_eq_true, if_false, List.isEmpty_nil, if_true, hplB, Bool.false_and,
    getListField]
  simp [getListField, hcoreU, hdepU]

/-- Witness for C8 on a concrete two-line analysis response. -/
theorem parseAnalysis_labeled_extraction_witness :
    parseAnalysisResponse (renderAnalysisText (chars "Solves X") (chars "New approach Y")) =
      .ok { intent := some (.str (chars "Solves X"))
          , novelty := some (.str (chars "New approach Y"))
          , core_algorithms := some (.arr []), complexity := some (.str (chars "Moderate"))
          , dependencies := some (.arr []) } :=
  parseAnalysis_labeled_extraction (chars "Solves X") (chars "New approach Y")
    (by decide) (by decide) (by decide) (by decide) (by decide) (by decide)
    (by decide) (by decide) (by decide) (by decide) (by decide)

/-- **C8 counterexample.** On
`"INTENT: A\nfoo: B\nNOVELTY: C"` the extracted intent is `"A"`: the value
stops at the unrecognized label-shaped line `foo:`, not at the next
*recognized* label as claimed (which would give `"A\nfoo: B"`).  The same
run also shows `core_algorithms = []`: for an absent `CORE_ALGORITHMS:`
the claimed in-code placeholder `['Algorithm']` is not substituted. -/
theorem parseAnalysis_stops_at_unrecognized_label :
    parseAnalysisResponse (chars "INTENT: A\nfoo: B\nNOVELTY: C") =
      .ok { intent := some (.str (chars "A")), novelty := some (.str (chars "C"))
          , core_algorithms := some (.arr []), complexity := some (.str (chars "Moderate"))
          , dependencies := some (.arr []) } ∧
    chars "A" ≠ chars "A\nfoo: B" ∧
    ([] : List Json) ≠ [.str (chars "Algorithm")] := by
  refine ⟨rfl, by decide, by simp⟩

-- --- Support lemmas for the marker-protocol claim -------------------------

theorem markerMD_decomp : markerMD = chars "---CELL_" ++ chars "MARKDOWN---" := rfl

theorem markerCODE_decomp : markerCODE = chars "---CELL_" ++ chars "CODE---" := rfl

theorem startsCI_marker_false (pat : List Char) (hpat : pat = markerMD ∨ pat = markerCODE)
    (c : Char) (cs t : List Char)
    (h : occursCI (chars "---CELL_") (c :: (cs ++ t.take 7)) = false) :
    startsCI pat (c :: (cs ++ t)) = false := by
  cases hb : startsCI pat (c :: (cs ++ t)) with
  | false => rfl
  | true =>
    exfalso
    have hpre : startsCI (chars "---CELL_") (c :: (cs ++ t)) = true := by
      rcases hpat with rfl | rfl
      · exact startsCI_of_append _ _ (by rw [← markerMD_decomp]; exact hb)
      · exact startsCI_of_append _ _ (by rw [← markerCODE_decomp]; exact hb)
    have hst := startsCI_straddle (chars "---CELL_") (c :: cs) t
      (by simp) (by simpa using hpre)
    have hlen : (chars "---CELL_").length - 1 = 7 := by decide
    rw [hlen, List.cons_append] at hst
    rw [hst] at h
    simp at h

theorem markerScan_append (u t : List Char)
    (h : occursCI (chars "---CELL_") (u ++ t.take 7) = false) :
    markerScan (u ++ t) = (u ++ (markerScan t).1, (markerScan t).2) := by
  induction u with
  | nil => simp
  | cons c cs ih =>
    rw [List.cons_append] at h
    have h2 : occursCI (chars "---CELL_") (cs ++ t.take 7) = false := by
      have := h
      simp only [occursCI, Bool.or_eq_false_iff] at this
      exact this.2
    have hmd : startsCI markerMD (c :: (cs ++ t)) = false :=
      startsCI_marker_false markerMD (Or.inl rfl) c cs t h
    have hcode : startsCI markerCODE (c :: (cs ++ t)) = false :=
      startsCI_marker_false markerCODE (Or.inr rfl) c cs t h
    rw [List.cons_append]
    rw [markerScan]
    simp only [hmd, hcode, Bool.false_eq_true, if_false]
    rw [ih h2]
    simp

theorem renderSegs_take7 (segs : List (CellType × List Char)) :
    (renderSegs segs).take 7 = [] ∨ (renderSegs segs).take 7 = chars "---CELL" := by
  cases segs with
  | nil => left; rfl
  | cons s rest =>
    right
    rw [renderSegs]
    cases s.1 with
    | markdown =>
      rw [show markerOf CellType.markdown = chars "---CELL" ++ chars "_MARKDOWN---" from rfl,
        List.append_assoc, List.append_assoc,
        show (7 : Nat) = (chars "---CELL").length from rfl, List.take_left]
    | code =>
      rw [show markerOf CellType.code = chars "---CELL" ++ chars "_CODE---" from rfl,
        List.append_assoc, List.append_assoc,
        show (7 : Nat) = (chars "---CELL").length from rfl, List.take_left]

theorem occursCI_take7_false (c : List Char) (segs : List (CellType × List Char))
    (h : occursCI (chars "---CELL_") (c ++ chars "---CELL") = false) :
    occursCI (chars "---CELL_") (c ++ (renderSegs segs).take 7) = false := by
  rcases renderSegs_take7 segs with he | he <;> rw [he]
  · cases hb : occursCI (chars "---CELL_") (c ++ []) with
    | false => rfl
    | true =>
      exfalso
      rw [List.append_nil] at hb
      have := occursCI_mono_right (chars "---CELL_") (chars "---CELL") hb
      rw [this] at h
      simp at h
  · exact h

theorem markerScan_renderSegs (segs : List (CellType × List Char))
    (h : ∀ s ∈ segs, occursCI (chars "---CELL_") (s.2 ++ chars "---CELL") = false) :
    markerScan (renderSegs segs) = ([], segs) := by
  induction segs with
  | nil => simp [renderSegs, markerScan]
  | cons s rest ih =>
    have hs := h s (by simp)
    have hrest := ih (fun x hx => h x (by simp [hx]))
    have hocc : occursCI (chars "---CELL_") (s.2 ++ (renderSegs rest).take 7) = false :=
      occursCI_take7_false s.2 rest hs
    obtain ⟨k, content⟩ := s
    cases k with
    | markdown =>
      have hexp : renderSegs ((CellType.markdown, content) :: rest) =
          '-' :: (chars "--CELL_MARKDOWN---" ++ (content ++ renderSegs rest)) := by
        rw [renderSegs, markerOf]
        simp [markerMD, chars]
      rw [hexp, markerScan]
      have hsmd : startsCI markerMD ('-' :: (chars "--CELL_MARKDOWN---" ++ (content ++ renderSegs rest))) = true := by
        have : '-' :: (chars "--CELL_MARKDOWN---" ++ (content ++ renderSegs rest)) =
            markerMD ++ (content ++ renderSegs rest) := by simp [markerMD, chars]
        rw [this]
        exact startsCI_self_append _ _
      simp only [hsmd, if_true]
      have hdrop : (chars "--CELL_MARKDOWN---" ++ (content ++ renderSegs rest)).drop 18 =
          content ++ renderSegs rest := by
        have h18 : (chars "--CELL_MARKDOWN---").length = 18 := by decide
        rw [← h18, List.drop_left]
      rw [hdrop, markerScan_append content (renderSegs rest) hocc, hrest]
      simp
    | code =>
      have hexp : renderSegs ((CellType.code, content) :: rest) =
          '-' :: (chars "--CELL_CODE---" ++ (content ++ renderSegs rest)) := by
        rw [renderSegs, markerOf]
        simp [markerCODE, chars]
      rw [hexp, markerScan]
      have hsmd : startsCI markerMD ('-' :: (chars "--CELL_CODE---" ++ (content ++ renderSegs rest))) = false := by
        cases hb : startsCI markerMD ('-' :: (chars "--CELL_CODE---" ++ (content ++ renderSegs rest))) with
        | false => rfl
        | true =>
          exfalso
          have heq : '-' :: (chars "--CELL_CODE---" ++ (content ++ renderSegs rest)) =
              markerCODE ++ (content ++ renderSegs rest) := by simp [markerCODE, chars]
          rw [heq] at hb
          have hpref : startsCI (chars "---CELL_M") (markerCODE ++ (content ++ renderSegs rest)) = true :=
            startsCI_of_append _ _ (by
              rw [show chars "---CELL_M" ++ chars "ARKDOWN---" = markerMD from rfl]
              exact hb)
          have h9 : startsCI (chars "---CELL_M")
              ((markerCODE ++ (content ++ renderSegs rest)).take 9) = true := by
            rw [startsCI_take _ _ 9 (by decide)]
            exact hpref
          rw [List.take_append_of_le_length (by decide)] at h9
          revert h9
          decide
      have hscd : startsCI markerCODE ('-' :: (chars "--CELL_CODE---" ++ (content ++ renderSegs rest))) = true := by
        have : '-' :: (chars "--CELL_CODE---" ++ (content ++ renderSegs rest)) =
            markerCODE ++ (content ++ renderSegs rest) := by simp [markerCODE, chars]
        rw [this]
        exact startsCI_self_append _ _
      simp only [hsmd, hscd, Bool.false_eq_true, if_false, if_true]
      have hdrop : (chars "--CELL_CODE---" ++ (content ++ renderSegs rest)).drop 14 =
          content ++ renderSegs rest := by
        have h14 : (chars "--CELL_CODE---").length = 14 := by decide
        rw [← h14, List.drop_left]
      rw [hdrop, markerScan_append content (renderSegs rest) hocc, hrest]
      simp

theorem filterMap_segToCell_eq_map (segs : List (CellType × List Char))
    (h : ∀ s ∈ segs, (trim s.2).isEmpty = false) :
    segs.filterMap segToCell = segs.map (fun s => (⟨s.1, trim s.2⟩ : NotebookCell)) := by
  induction segs with
  | nil => rfl
  | cons s rest ih =>
    have hs := h s (by simp)
    simp only [List.filterMap_cons, List.map_cons, segToCell, hs, Bool.false_eq_true,
      if_false]
    rw [ih (fun x hx => h x (by simp [hx]))]

-- --- C3: marker-protocol parsing is exact ---------------------------------

/-- **C3.** For marker-protocol text — a preamble and `N` marker-headed
segments, none of which contains a stray (case-insensitive) `---CELL_` —
the marker-splitting loop keeps, in order, exactly the segments whose
trimmed content is nonempty, each with its marker's kind and its trimmed
content (so a marker followed by only whitespace yields no cell); and when
every segment has nonempty content and `N ≥ 2`, both `parseMarkdownNotebook`
versions return exactly those `N` cells in order. -/
theorem markerProtocol_cells_exact (pre : List Char) (segs : List (CellType × List Char))
    (hpre : occursCI (chars "---CELL_") (pre ++ chars "---CELL") = false)
    (hsegs : ∀ s ∈ segs, occursCI (chars "---CELL_") (s.2 ++ chars "---CELL") = false) :
    markerCells (renderNotebook pre segs) = segs.filterMap segToCell ∧
    ((∀ s ∈ segs, (trim s.2).isEmpty = false) → 2 ≤ segs.length →
      OrchestratorService.parseMarkdownNotebook (renderNotebook pre segs) =
        .ok { guide := extractGuide (renderNotebook pre segs)
            , notebookName := extractNotebookName (renderNotebook pre segs)
            , cells := segs.map (fun s => ⟨s.1, trim s.2⟩) } ∧
      GeminiService.parseMarkdownNotebook (renderNotebook pre segs) =
        .ok { guide := extractGuide (renderNotebook pre segs)
            , notebookName := extractNotebookName (renderNotebook pre segs)
            , cells := segs.map (fun s => ⟨s.1, trim s.2⟩) }) := by
  have hscan : markerScan (renderNotebook pre segs) = (pre, segs) := by
    rw [renderNotebook,
      markerScan_append pre (renderSegs segs) (occursCI_take7_false pre segs hpre),
      markerScan_renderSegs segs hsegs]
    simp
  have hcells : markerCells (renderNotebook pre segs) = segs.filterMap segToCell := by
    rw [markerCells, hscan]
    rfl
  refine ⟨hcells, fun hne hlen => ?_⟩
  have hmap : markerCells (renderNotebook pre segs) =
      segs.map (fun s => (⟨s.1, trim s.2⟩ : NotebookCell)) := by
    rw [hcells, filterMap_segToCell_eq_map segs hne]
  have hlenc : (segs.map (fun s => (⟨s.1, trim s.2⟩ : NotebookCell))).length = segs.length := by
    simp
  have hnonE : (segs.map (fun s => (⟨s.1, trim s.2⟩ : NotebookCell))).isEmpty = false := by
    cases hsg : segs with
    | nil => rw [hsg] at hlen; simp at hlen
    | cons x xs => simp
  constructor
  · rw [OrchestratorService.parseMarkdownNotebook]
    simp only [hmap, hnonE, Bool.false_eq_true, if_false]
    rw [if_neg (by rw [hlenc]; omega)]
  · rw [GeminiService.parseMarkdownNotebook]
    simp only [hmap, hnonE, Bool.false_eq_true, if_false]
    rw [if_neg (by rw [hlenc]; omega)]

/-- Witness for C3 on a concrete two-cell marker response (with a third
marker whose content is pure whitespace, which yields no cell). -/
theorem markerProtocol_cells_exact_witness :
    OrchestratorService.parseMarkdownNotebook
        (renderNotebook (chars "intro\n")
          [(CellType.markdown, chars "\n# Intro\n"), (CellType.code, chars "\nx = 1\n")]) =
      .ok { guide := extractGuide (renderNotebook (chars "intro\n")
              [(CellType.markdown, chars "\n# Intro\n"), (CellType.code, chars "\nx = 1\n")])
          , notebookName := extractNotebookName (renderNotebook (chars "intro\n")
              [(CellType.markdown, chars "\n# Intro\n"), (CellType.code, chars "\nx = 1\n")])
          , cells := [(CellType.markdown, chars "\n# Intro\n"), (CellType.code, chars "\nx = 1\n")].map
              (fun s => ⟨s.1, trim s.2⟩) } ∧
    markerCells (renderNotebook [] [(CellType.code, chars "   ")]) =
      [(CellType.code, chars "   ")].filterMap segToCell := by
  constructor
  · exact ((markerProtocol_cells_exact (chars "intro\n")
      [(CellType.markdown, chars "\n# Intro\n"), (CellType.code, chars "\nx = 1\n")]
      (by decide) (by decide)).2 (by decide) (by decide)).1
  · exact (markerProtocol_cells_exact []
      [(CellType.code, chars "   ")] (by decide) (by decide)).1

-- --- Support lemmas for the fallback-chain claim --------------------------

theorem markerScan_id (t : List Char)
    (h : occursCI (chars "---CELL_") t = false) : markerScan t = (t, []) := by
  induction t with
  | nil => simp [markerScan]
  | cons c cs ih =>
    simp only [occursCI, Bool.or_eq_false_iff] at h
    have hmd : startsCI markerMD (c :: cs) = false := by
      cases hb : startsCI markerMD (c :: cs) with
      | false => rfl
      | true =>
        exfalso
        have := occursCI_of_startsCI
          (startsCI_of_append (chars "---CELL_") (chars "MARKDOWN---")
            (by rw [← markerMD_decomp]; exact hb))
        simp [occursCI, h.1, h.2] at this
    have hcode : startsCI markerCODE (c :: cs) = false := by
      cases hb : startsCI markerCODE (c :: cs) with
      | false => rfl
      | true =>
        exfalso
        have := occursCI_of_startsCI
          (startsCI_of_append (chars "---CELL_") (chars "CODE---")
            (by rw [← markerCODE_decomp]; exact hb))
        simp [occursCI, h.1, h.2] at this
    rw [markerScan]
    simp [hmd, hcode, ih h.2]

theorem startsWithP_of_append (p q : List Char) {l : List Char}
    (h : startsWithP (p ++ q) l = true) : startsWithP p l = true := by
  induction p generalizing l with
  | nil => simp [startsWithP]
  | cons c cs ih =>
    cases l with
    | nil => simp [startsWithP] at h
    | cons d ds =>
      simp only [List.cons_append, startsWithP, Bool.and_eq_true] at h
      simpa [startsWithP, h.1] using ih h.2

theorem fenceScan_id (t : List Char)
    (h : occursSub (chars "```") t = false) : fenceScan t = (t, []) := by
  induction t with
  | nil => simp [fenceScan]
  | cons c cs ih =>
    simp only [occursSub, Bool.or_eq_false_iff] at h
    have hbt : startsWithP (chars "```") (c :: cs) = false := h.1
    have hp1 : startsWithP (chars "```python\n") (c :: cs) = false := by
      cases hb : startsWithP (chars "```python\n") (c :: cs) with
      | false => rfl
      | true =>
        exfalso
        have := startsWithP_of_append (chars "```") (chars "python\n")
          (by rw [show chars "```" ++ chars "python\n" = chars "```python\n" from rfl]; exact hb)
        rw [this] at hbt
        simp at hbt
    have hp2 : startsWithP (chars "```py\n") (c :: cs) = false := by
      cases hb : startsWithP (chars "```py\n") (c :: cs) with
      | false => rfl
      | true =>
        exfalso
        have := startsWithP_of_append (chars "```") (chars "py\n")
          (by rw [show chars "```" ++ chars "py\n" = chars "```py\n" from rfl]; exact hb)
        rw [this] at hbt
        simp at hbt
    have hp3 : startsWithP (chars "```\n") (c :: cs) = false := by
      cases hb : startsWithP (chars "```\n") (c :: cs) with
      | false => rfl
      | true =>
        exfalso
        have := startsWithP_of_append (chars "```") (chars "\n")
          (by rw [show chars "```" ++ chars "\n" = chars "```\n" from rfl]; exact hb)
        rw [this] at hbt
        simp at hbt
    rw [fenceScan]
    simp [hp1, hp2, hp3, ih h.2]

theorem removeAllCI_id (pat t : List Char)
    (h : occursCI pat t = false) : removeAllCI pat t = t := by
  induction t with
  | nil => simp [removeAllCI]
  | cons c cs ih =>
    simp only [occursCI, Bool.or_eq_false_iff] at h
    rw [removeAllCI]
    simp [h.1, ih h.2]

theorem removeLabelLines_id (pat t : List Char)
    (h : occursCI pat t = false) : removeLabelLines pat t = t := by
  induction t with
  | nil => simp [removeLabelLines]
  | cons c cs ih =>
    simp only [occursCI, Bool.or_eq_false_iff] at h
    rw [removeLabelLines]
    simp [h.1, ih h.2]

theorem removeNBStart_id (t : List Char)
    (h : occursCI (chars "---NOTEBOOK_START---") t = false) : removeNBStart t = t := by
  induction t with
  | nil => simp [removeNBStart]
  | cons c cs ih =>
    simp only [occursCI, Bool.or_eq_false_iff] at h
    rw [removeNBStart]
    simp [h.1, ih h.2]

theorem findTitle_none (t : List Char)
    (h : occursCI (chars "TITLE:") t = false) : findTitle t = none := by
  induction t with
  | nil => rfl
  | cons c cs ih =>
    simp only [occursCI, Bool.or_eq_false_iff] at h
    rw [findTitle]
    simp [h.1, ih h.2]

-- --- C2: fallback chain and failure condition (amended) -------------------

/-- **C2 (amended).** When neither cell markers nor fenced code blocks (nor
any of the cleanup patterns) occur in a nonempty response,
`geminiService`'s parser chain does wrap the text as a fixed markdown cell
plus a code cell holding the trimmed raw text instead of raising — but the
orchestrator's `parseMarkdownNotebook` (the one the multi-step pipeline
uses) has no such final fallback and raises in exactly this situation, so
"raises iff fewer than two cells are recoverable by any strategy" holds
only for the geminiService chain (and even there an error is raised once
the cleaned text is empty, and a single-fence response yields a one-cell
notebook without raising). -/
theorem notebookParser_fallback_behavior (text : List Char)
    (h1 : occursCI (chars "---CELL_") text = false)
    (h2 : occursSub (chars "```") text = false)
    (h3 : occursCI (chars "---NOTEBOOK_START---") text = false)
    (h4 : occursCI (chars "---NOTEBOOK_END---") text = false)
    (h5 : occursCI (chars "TITLE:") text = false)
    (h6 : occursCI (chars "GUIDE:") text = false)
    (h7 : (trim text).isEmpty = false) :
    GeminiService.parseMarkdownNotebook text =
      .ok { guide := chars "Run cells sequentially. Generated from raw model output."
          , notebookName := chars "paper_implementation.ipynb"
          , cells := [ ⟨CellType.markdown, chars "# Paper Implementation\n\nGenerated implementation from the research paper."⟩
                     , ⟨CellType.code, trim text⟩ ] } ∧
    OrchestratorService.parseMarkdownNotebook text =
      .error (chars ("Could not extract notebook cells from the AI response. " ++
        "Try disabling Multi-Step Generation or using a different model.")) := by
  have hmc : markerCells text = [] := by
    rw [markerCells, markerScan_id text h1]
    rfl
  have hfs : fenceScan text = (text, []) := fenceScan_id text h2
  have hclean : trim (removeLabelLines (chars "GUIDE:") (removeLabelLines (chars "TITLE:")
      (removeAllCI (chars "---NOTEBOOK_END---")
        (removeAllCI (chars "---NOTEBOOK_START---") text)))) = trim text := by
    rw [removeAllCI_id _ _ h3, removeAllCI_id _ _ h4,
      removeLabelLines_id _ _ h5, removeLabelLines_id _ _ h6]
  constructor
  · rw [GeminiService.parseMarkdownNotebook]
    simp only [hmc, List.isEmpty_nil, if_true]
    rw [GeminiService.parseCodeBlocksAsNotebook]
    simp only [hfs, fenceLoopCells, lastAfter, List.isEmpty_nil, Bool.not_true,
      Bool.and_false, Bool.false_eq_true, if_false, List.append_nil, if_true]
    rw [hclean]
    simp [h7]
  · rw [OrchestratorService.parseMarkdownNotebook]
    simp [hmc, hfs, fenceLoopCells]

/-- Witness for C2 on a concrete prose-only response. -/
theorem notebookParser_fallback_behavior_witness :
    GeminiService.parseMarkdownNotebook (chars "just prose output") =
      .ok { guide := chars "Run cells sequentially. Generated from raw model output."
          , notebookName := chars "paper_implementation.ipynb"
          , cells := [ ⟨CellType.markdown, chars "# Paper Implementation\n\nGenerated implementation from the research paper."⟩
                     , ⟨CellType.code, trim (chars "just prose output")⟩ ] } ∧
    OrchestratorService.parseMarkdownNotebook (chars "just prose output") =
      .error (chars ("Could not extract notebook cells from the AI response. " ++
        "Try disabling Multi-Step Generation or using a different model.")) :=
  notebookParser_fallback_behavior (chars "just prose output")
    (by decide) (by decide) (by decide) (by decide) (by decide) (by decide) (by decide)

/-- **C2 counterexample.** On `"hello world"` both recovery strategies
yield zero cells, and the orchestrator's notebook parser *raises* instead
of wrapping the text as a markdown cell plus a code cell as the claim
states. -/
theorem orchestratorParser_raises_instead_of_wrapping :
    markerCells (chars "hello world") = [] ∧
    fenceScan (chars "hello world") = (chars "hello world", []) ∧
    OrchestratorService.parseMarkdownNotebook (chars "hello world") =
      .error (chars ("Could not extract notebook cells from the AI response. " ++
        "Try disabling Multi-Step Generation or using a different model.")) := by
  refine ⟨?_, ?_, ?_⟩
  · rw [markerCells, markerScan_id (chars "hello world") (by decide)]
    rfl
  · exact fenceScan_id (chars "hello world") (by decide)
  · have hmc : markerCells (chars "hello world") = [] := by
      rw [markerCells, markerScan_id (chars "hello world") (by decide)]
      rfl
    rw [OrchestratorService.parseMarkdownNotebook]
    simp [hmc, fenceScan_id (chars "hello world") (by decide), fenceLoopCells]
